import Mathlib

set_option maxRecDepth 100000

/-
Verification development for the game-catalog ingestion and query engine.

The Python sources are shallowly embedded: pure string processing becomes
Lean functions on `String`/`List Char`; BeautifulSoup documents become an
explicit HTML node tree with the traversals the code performs; the SQLite
store becomes an explicit state record with `INSERT OR REPLACE` semantics
(the conflicting row is deleted and a fresh row with a fresh AUTOINCREMENT
id is inserted); fallible field extractors become `Except Unit`-valued
functions, with `safe_execute` catching the error case.

Wall-clock timestamps (`created_at` / `updated_at`) are not modelled: they
are nondeterministic.  Every other persisted column is.

All definitions use structural recursion so that concrete executions
reduce inside the kernel (`decide` / `rfl`).
-/

/-! ## Python string primitives -/

/-- Python whitespace for `str.strip` / `\s` (the subset reachable in this
code base). -/
def isPyWs (c : Char) : Bool :=
  c = ' ' ∨ c = '\t' ∨ c = '\n' ∨ c = '\r' ∨ c = '\x0b' ∨ c = '\x0c'

/-- Python `str.strip()`. -/
def pyStrip (s : String) : String :=
  ⟨(s.data.dropWhile isPyWs).reverse.dropWhile isPyWs |>.reverse⟩

/-- Lower-case one character: ASCII plus the Cyrillic range used by the
genre vocabularies. -/
def pyLowerChar (c : Char) : Char :=
  if 'A' ≤ c ∧ c ≤ 'Z' then Char.ofNat (c.toNat + 32)
  else if 0x410 ≤ c.toNat ∧ c.toNat ≤ 0x42F then Char.ofNat (c.toNat + 0x20)
  else if c.toNat = 0x401 then Char.ofNat 0x451
  else c

/-- Upper-case one character: ASCII plus Cyrillic. -/
def pyUpperChar (c : Char) : Char :=
  if 'a' ≤ c ∧ c ≤ 'z' then Char.ofNat (c.toNat - 32)
  else if 0x430 ≤ c.toNat ∧ c.toNat ≤ 0x44F then Char.ofNat (c.toNat - 0x20)
  else if c.toNat = 0x451 then Char.ofNat 0x401
  else c

/-- Python `str.lower()` (ASCII + Cyrillic). -/
def pyLower (s : String) : String :=
  ⟨s.data.map pyLowerChar⟩

/-- A cased character for `str.title()` word boundaries. -/
def isCasedChar (c : Char) : Bool :=
  ('A' ≤ c ∧ c ≤ 'Z') ∨ ('a' ≤ c ∧ c ≤ 'z') ∨
  (0x410 ≤ c.toNat ∧ c.toNat ≤ 0x44F) ∨ c.toNat = 0x401 ∨ c.toNat = 0x451

/-- Core loop of Python `str.title()`: the first cased character of every
run of cased characters is upper-cased, the rest are lower-cased. -/
def pyTitleGo : Bool → List Char → List Char
  | _, [] => []
  | prevCased, c :: cs =>
    if isCasedChar c then
      (if prevCased then pyLowerChar c else pyUpperChar c) :: pyTitleGo true cs
    else
      c :: pyTitleGo false cs

/-- Python `str.title()`. -/
def pyTitle (s : String) : String :=
  ⟨pyTitleGo false s.data⟩

/-- Does `hay` begin with `needle`? -/
def startsList : List Char → List Char → Bool
  | [], _ => true
  | _ :: _, [] => false
  | a :: as, b :: bs => a = b ∧ startsList as bs

/-- Python substring test `needle in hay` on character lists. -/
def containsSub (needle : List Char) : List Char → Bool
  | [] => needle.isEmpty
  | c :: rest => startsList needle (c :: rest) || containsSub needle rest

/-- Python substring test `needle in hay`. -/
def strContains (hay needle : String) : Bool :=
  containsSub needle.data hay.data

/-- Fuelled replacement loop for Python `str.replace` (leftmost,
non-overlapping).  The fuel only serves structural termination; it is
always at least the length of the remaining text plus one, and every
pattern used in this code base is nonempty, so it never runs out. -/
def replaceFuel (pat repl : List Char) : Nat → List Char → List Char
  | 0, target => target
  | _ + 1, [] => []
  | fuel + 1, c :: rest =>
    if startsList pat (c :: rest) then
      repl ++ replaceFuel pat repl fuel ((c :: rest).drop pat.length)
    else
      c :: replaceFuel pat repl fuel rest

/-- Python `str.replace(pat, repl)` (for nonempty `pat`). -/
def pyReplace (s pat repl : String) : String :=
  ⟨replaceFuel pat.data repl.data (s.data.length + 1) s.data⟩

/-- Python `str.split(sep)` for a single-character separator: empty parts
are kept, `"".split(sep) = [""]`. -/
def splitOnChar (sep : Char) : List Char → List (List Char)
  | [] => [[]]
  | c :: rest =>
    match splitOnChar sep rest with
    | [] => if c = sep then [[], []] else [[c]]
    | h :: t => if c = sep then [] :: h :: t else (c :: h) :: t

/-- Python `text.split(',')` returning strings. -/
def pySplitComma (s : String) : List String :=
  (splitOnChar ',' s.data).map (fun l => ⟨l⟩)

/-- Split on a character-class predicate, dropping empty parts (used for
HTML class tokens). -/
def splitDropWs : List Char → List (List Char)
  | [] => [[]]
  | c :: rest =>
    match splitDropWs rest with
    | [] => if isPyWs c then [[], []] else [[c]]
    | h :: t => if isPyWs c then [] :: h :: t else (c :: h) :: t

/-! ## `GameParser._clean_genre_name` and the genre-splitting pipeline
(src/parser.py lines 507-579 and 710-730) -/

/-- The `exclude_words` list of `GameParser._clean_genre_name`. -/
def excludeWords : List String :=
  ["игра", "game", "для", "for", "на", "on", "switch",
   "nintendo", "консоль", "console", "платформа", "platform"]

/-- `GameParser._clean_genre_name`: lower-case, then for each exclude word
`replace(word, '').strip()`, then `str.title()` of whatever is left. -/
def clean_genre_name (genre : String) : String :=
  if genre = "" then ""
  else
    let gl := excludeWords.foldl (fun acc w => pyStrip (pyReplace acc w "")) (pyLower genre)
    if gl ≠ "" then pyTitle gl else ""

/-- The comma-split / strip / clean / dedupe loop that
`GameParser._extract_genres_from_page` runs on a metadata `content` string
(the identical block appears at each of its three fallback steps):
`genre_parts = [part.strip() for part in content.split(',') if part.strip()]`
followed by appending `_clean_genre_name(part)` when nonempty and not yet
present. -/
def genresFromContent (content : String) : List String :=
  let parts := ((pySplitComma content).map pyStrip).filter (fun p => p ≠ "")
  parts.foldl
    (fun acc part =>
      let g := clean_genre_name part
      if g ≠ "" ∧ g ∉ acc then acc ++ [g] else acc)
    []

/-! ## HTML document model (BeautifulSoup embedding) -/

/-- An HTML node: an element with tag, attributes and children, or a text
node.  Attribute lookup is first-match, as in a parsed document where
attribute names are unique per element. -/
inductive HNode where
  | elem (tag : String) (attrs : List (String × String)) (children : List HNode)
  | txt (s : String)

namespace HNode

/-- Attribute lookup, `element.get(name)`. -/
def attr (n : HNode) (key : String) : Option String :=
  match n with
  | .elem _ attrs _ => attrs.lookup key
  | .txt _ => none

/-- `element.get(a) or element.get(b)`: Python `or` also skips an empty
string. -/
def attrOr (n : HNode) (a b : String) : Option String :=
  match n.attr a with
  | some v => if v = "" then n.attr b else some v
  | none => n.attr b

/-- Tag of an element (`""` for text nodes). -/
def tag : HNode → String
  | .elem t _ _ => t
  | .txt _ => ""

/-- The whitespace-separated class tokens of an element. -/
def classes (n : HNode) : List String :=
  ((splitDropWs ((n.attr "class").getD "").data).map (fun l => (⟨l⟩ : String))).filter
    (fun s => s ≠ "")

/-- CSS class test `.c`. -/
def hasClass (n : HNode) (c : String) : Bool :=
  (n.classes).contains c

/-- Is the node an element? -/
def isElem : HNode → Bool
  | .elem _ _ _ => true
  | .txt _ => false

/-- Element children of a node, in document order. -/
def childElems : HNode → List HNode
  | .elem _ _ cs => cs.filter isElem
  | .txt _ => []

mutual
/-- `get_text()`: concatenation of all descendant strings. -/
def getText : HNode → String
  | .txt s => s
  | .elem _ _ cs => getTextList cs
/-- `get_text()` over a child list. -/
def getTextList : List HNode → String
  | [] => ""
  | n :: ns => getText n ++ getTextList ns
end

mutual
/-- All descendant elements satisfying `p` in the given forest, in document
(pre-)order — BeautifulSoup `find_all`. -/
def findAllIn : (HNode → Bool) → List HNode → List HNode
  | _, [] => []
  | p, n :: ns => findAllNode p n ++ findAllIn p ns
/-- `find_all` from a single node, the node itself included when matching. -/
def findAllNode : (HNode → Bool) → HNode → List HNode
  | _, .txt _ => []
  | p, .elem t a cs =>
    (if p (.elem t a cs) then [HNode.elem t a cs] else []) ++ findAllIn p cs
end

/-- BeautifulSoup `find`: first descendant element satisfying `p` (the node
itself excluded). -/
def findFirst (p : HNode → Bool) (n : HNode) : Option HNode :=
  (findAllIn p n.childElems).head?

/-- `find_all(tagName)` among descendants of `n`. -/
def findAllTag (n : HNode) (t : String) : List HNode :=
  findAllIn (fun m => m.tag = t) n.childElems

end HNode

/-! ## `GameParser._extract_genres_from_page` (src/parser.py lines 507-579) -/

/-- `find('meta', attrs=...)` restricted to one attribute/value pair, then
`meta.get('content')`, returning the raw content only when the tag exists
and the content attribute is present and truthy (nonempty) — the guard
`if meta_genre and meta_genre.get('content')`. -/
def metaContentIn (n : HNode) (key val : String) : Option String :=
  match n.findFirst (fun m => m.tag = "meta" ∧ m.attr key = some val) with
  | none => none
  | some m =>
    match m.attr "content" with
    | none => none
    | some c => if c = "" then none else some c

/-- Hand-compiled CSS selector
`body > section.wrap.cf > section > div > div > article` as used with
`select_one`: all candidate paths are collected in document order and the
first is taken. -/
def selectMainArticle (soup : HNode) : Option HNode :=
  let bodies := HNode.findAllIn (fun m => m.tag = "body") [soup]
  let step := fun (ns : List HNode) (p : HNode → Bool) =>
    (ns.map (fun n => (n.childElems).filter p)).flatten
  let l1 := step bodies (fun n => n.tag = "section" ∧ n.hasClass "wrap" ∧ n.hasClass "cf")
  let l2 := step l1 (fun n => n.tag = "section")
  let l3 := step l2 (fun n => n.tag = "div")
  let l4 := step l3 (fun n => n.tag = "div")
  (step l4 (fun n => n.tag = "article")).head?

/-- One fallback step of `_extract_genres_from_page`: given the (optional)
raw metadata content, strip it, split/clean/dedupe, and succeed only when
the resulting genre list is nonempty (`if genres: return genres[:10]`). -/
def genresStep (rawContent : Option String) : Option (List String) :=
  match rawContent with
  | none => none
  | some raw =>
    let gs := genresFromContent (pyStrip raw)
    if gs = [] then none else some (gs.take 10)

/-- `GameParser._extract_genres_from_page`: priority lookup of
`meta[itemprop=genre]` inside the main article container, then anywhere on
the page, then the `meta name=genre` / `meta property=genre` /
`meta name=keywords` patterns, each step engaged only when the previous
produced no genres; `[]` when everything fails. -/
def extract_genres_from_page (soup : HNode) : List String :=
  match genresStep ((selectMainArticle soup).bind
      (fun c => metaContentIn c "itemprop" "genre")) with
  | some gs => gs
  | none =>
  match genresStep (metaContentIn soup "itemprop" "genre") with
  | some gs => gs
  | none =>
  match genresStep (metaContentIn soup "name" "genre") with
  | some gs => gs
  | none =>
  match genresStep (metaContentIn soup "property" "genre") with
  | some gs => gs
  | none =>
  match genresStep (metaContentIn soup "name" "keywords") with
  | some gs => gs
  | none => []

/-- A detail page whose main article container carries
`<meta itemprop="genre" content="Action, RPG ,Adventure">`. -/
def soupC1 : HNode :=
  .elem "html" [] [
    .elem "body" [] [
      .elem "section" [("class", "wrap cf")] [
        .elem "section" [] [
          .elem "div" [] [
            .elem "div" [] [
              .elem "article" [] [
                .elem "meta" [("itemprop", "genre"),
                              ("content", "Action, RPG ,Adventure")] []]]]]]]]

example : clean_genre_name "Action" = "Acti" := by decide
example : clean_genre_name " RPG " = "Rpg" := by decide
example : extract_genres_from_page soupC1 = ["Acti", "Rpg", "Adventure"] := by decide

/-! ## `utils.clean_text` (src/utils.py lines 40-52) -/

/-- Fuelled scan for `re.sub(r'<[^>]+>', '', text)`: at `<`, when a later
`>` exists with at least one character in between, the whole tag is
dropped; otherwise the `<` is kept.  Fuel is structural termination only;
it starts at `length + 1` and every step consumes at least one character. -/
def stripTagsFuel : Nat → List Char → List Char
  | 0, t => t
  | _ + 1, [] => []
  | fuel + 1, c :: rest =>
    if c = '<' then
      let mid := rest.takeWhile (fun d => d ≠ '>')
      match rest.drop mid.length with
      | '>' :: tail =>
        if mid.isEmpty then c :: stripTagsFuel fuel rest
        else stripTagsFuel fuel tail
      | _ => c :: stripTagsFuel fuel rest
    else c :: stripTagsFuel fuel rest

/-- `re.sub(r'<[^>]+>', '', text)`. -/
def stripTags (s : String) : String :=
  ⟨stripTagsFuel (s.data.length + 1) s.data⟩

/-- Decimal digits to a natural number. -/
def natFromDigits (ds : List Char) : Nat :=
  ds.foldl (fun acc d => 10 * acc + (d.toNat - '0'.toNat)) 0

/-- Hexadecimal digit value (`0`–`f`, upper or lower case). -/
def hexVal (c : Char) : Nat :=
  if '0' ≤ c ∧ c ≤ '9' then c.toNat - '0'.toNat
  else if 'a' ≤ c ∧ c ≤ 'f' then c.toNat - 'a'.toNat + 10
  else if 'A' ≤ c ∧ c ≤ 'F' then c.toNat - 'A'.toNat + 10
  else 0

/-- Is the character a hexadecimal digit? -/
def isHexDigit (c : Char) : Bool :=
  ('0' ≤ c ∧ c ≤ '9') ∨ ('a' ≤ c ∧ c ≤ 'f') ∨ ('A' ≤ c ∧ c ≤ 'F')

/-- Fuelled scan for Python `html.unescape`, restricted to the basic named
references (`&amp; &lt; &gt; &quot; &#39;`-style) and the numeric
`&#NNN;` / `&#xHH;` forms, all with a closing semicolon; any other `&` is
kept literally.  This covers every entity reachable in this code base. -/
def unescapeFuel : Nat → List Char → List Char
  | 0, t => t
  | _ + 1, [] => []
  | fuel + 1, c :: rest =>
    if c = '&' then
      match rest with
      | 'a' :: 'm' :: 'p' :: ';' :: tail => '&' :: unescapeFuel fuel tail
      | 'l' :: 't' :: ';' :: tail => '<' :: unescapeFuel fuel tail
      | 'g' :: 't' :: ';' :: tail => '>' :: unescapeFuel fuel tail
      | 'q' :: 'u' :: 'o' :: 't' :: ';' :: tail => '"' :: unescapeFuel fuel tail
      | 'a' :: 'p' :: 'o' :: 's' :: ';' :: tail => '\'' :: unescapeFuel fuel tail
      | '#' :: 'x' :: t1 =>
        let ds := t1.takeWhile isHexDigit
        match t1.drop ds.length with
        | ';' :: tail =>
          if ds.isEmpty then c :: unescapeFuel fuel rest
          else Char.ofNat (ds.foldl (fun a d => 16 * a + hexVal d) 0)
                 :: unescapeFuel fuel tail
        | _ => c :: unescapeFuel fuel rest
      | '#' :: t1 =>
        let ds := t1.takeWhile Char.isDigit
        match t1.drop ds.length with
        | ';' :: tail =>
          if ds.isEmpty then c :: unescapeFuel fuel rest
          else Char.ofNat (natFromDigits ds) :: unescapeFuel fuel tail
        | _ => c :: unescapeFuel fuel rest
      | _ => c :: unescapeFuel fuel rest
    else c :: unescapeFuel fuel rest

/-- Python `html.unescape` (restricted as documented above). -/
def htmlUnescape (s : String) : String :=
  ⟨unescapeFuel (s.data.length + 1) s.data⟩

/-- Drop one of two adjacent spaces (run-collapsing step). -/
def squeezeSpaces : List Char → List Char
  | [] => []
  | [c] => [c]
  | a :: b :: rest =>
    if a = ' ' ∧ b = ' ' then squeezeSpaces (b :: rest)
    else a :: squeezeSpaces (b :: rest)

/-- `re.sub(r'\s+', ' ', text)`: every maximal whitespace run becomes one
space (each whitespace character is first mapped to a space, then adjacent
spaces are collapsed). -/
def collapseWs (s : String) : String :=
  ⟨squeezeSpaces (s.data.map (fun c => if isPyWs c then ' ' else c))⟩

/-- `utils.clean_text`: strip HTML tags, decode entities, collapse
whitespace, strip. -/
def clean_text (s : String) : String :=
  if s = "" then ""
  else pyStrip (collapseWs (htmlUnescape (stripTags s)))

/-! ## URL helpers (src/utils.py lines 54-72) -/

/-- Valid scheme characters after the first (letters, digits, `+`, `-`,
`.`). -/
def isSchemeChar (c : Char) : Bool :=
  c.isAlpha ∨ c.isDigit ∨ c = '+' ∨ c = '-' ∨ c = '.'

/-- `urllib.parse.urlparse(...).scheme`: an alphabetic character followed
by scheme characters, terminated by `:`; empty when absent. -/
def urlScheme (s : String) : String :=
  match s.data with
  | [] => ""
  | c :: rest =>
    if c.isAlpha then
      let body := rest.takeWhile isSchemeChar
      match rest.drop body.length with
      | ':' :: _ => ⟨c :: body⟩
      | _ => ""
    else ""

/-- `urllib.parse.urlparse(...).netloc`: the authority component after
`scheme://`, up to the first `/`, `?` or `#`. -/
def urlNetloc (s : String) : String :=
  let sch := urlScheme s
  if sch = "" then ""
  else
    let afterScheme := s.data.drop (sch.data.length + 1)
    match afterScheme with
    | '/' :: '/' :: rest =>
      ⟨rest.takeWhile (fun c => c ≠ '/' ∧ c ≠ '?' ∧ c ≠ '#')⟩
    | _ => ""

/-- `utils.is_valid_url`: both scheme and netloc nonempty. -/
def is_valid_url (s : String) : Bool :=
  urlScheme s ≠ "" ∧ urlNetloc s ≠ ""

/-- `urllib.parse.urljoin` modelled for the hierarchical http(s) URLs this
code base produces: a url with its own scheme wins; `//`-prefixed urls
take the base scheme; `/`-prefixed urls take scheme and authority;
otherwise the url replaces the last path segment of the base.  Dot-segment
normalization is not modelled (never exercised here). -/
def urljoinLite (base url : String) : String :=
  if urlScheme url ≠ "" then url
  else if startsList "//".data url.data then urlScheme base ++ ":" ++ url
  else
    let sch := urlScheme base
    let net := urlNetloc base
    let pathChars := base.data.drop (sch.data.length + 3 + net.data.length)
    if startsList "/".data url.data then sch ++ "://" ++ net ++ url
    else
      let dir := (pathChars.reverse.dropWhile (fun c => c ≠ '/')).reverse
      sch ++ "://" ++ net ++ ⟨dir⟩ ++
        (if dir.isEmpty then "/" else "") ++ url

/-- `utils.normalize_url`: empty url falls back to the base, an url already
starting with the four characters `http` is returned unchanged, anything
else is joined onto the base. -/
def normalize_url (base url : String) : String :=
  if url = "" then base
  else if startsList "http".data url.data then url
  else urljoinLite base url

/-! ## `utils.validate_game_data` (src/utils.py lines 107-144) -/

/-- A game dict as assembled by the parsers; absent keys are `none`
(`dict.get` with default). -/
structure GameDict where
  title : Option String := none
  description : Option String := none
  rating : Option String := none
  genres : Option (List String) := none
  image_url : Option String := none
  screenshots : Option (List String) := none
  release_date : Option String := none
  url : Option String := none
deriving Repr, DecidableEq

/-- The cleaned record produced by `validate_game_data`. -/
structure ValidatedGame where
  title : String
  description : String
  rating : String
  url : String
  image_url : String
  release_date : String
  genres : List String
  screenshots : List String
deriving Repr, DecidableEq

/-- Python slice `s[:n]` (by code points, as in Python). -/
def pyTake (s : String) (n : Nat) : String :=
  ⟨s.data.take n⟩

/-- `utils.validate_game_data`: clean and length-cap the scalar fields,
clean the genre list (drop entries whose cleaned text is empty), resolve
and filter the screenshot URLs.  The `{}` returned by the Python code for
an empty cleaned title becomes `none`. -/
def validate_game_data (game : GameDict) : Option ValidatedGame :=
  let title := pyTake (clean_text (game.title.getD "")) 200
  if title = "" then none
  else
    let url := normalize_url "https://asst2game.ru" (game.url.getD "")
    some {
      title := title
      description := clean_text (game.description.getD "")
      rating := pyTake (clean_text (game.rating.getD "N/A")) 10
      url := url
      image_url := normalize_url url (game.image_url.getD "")
      release_date := pyTake (clean_text (game.release_date.getD "")) 20
      genres := ((game.genres.getD []).filter
          (fun g => g ≠ "" ∧ clean_text g ≠ "")).map
          (fun g => pyTake (clean_text g) 50)
      screenshots := ((game.screenshots.getD []).filter
          (fun s => s ≠ "" ∧ is_valid_url (normalize_url url s))).map
          (fun s => normalize_url url s) }

/-! ## `utils.extract_rating` (src/utils.py lines 147-176)

The regular expressions are embedded as dedicated matchers.  Greedy
matching of the leading number group needs no backtracking because every
continuation after the group starts with a character (`/`, `%`, `и`,
`rating` having already been consumed) that the number part cannot
absorb. -/

/-- Greedy match of `(\d+\.?\d*)` at the start of the input, returning the
group text and the rest. -/
def matchNum (cs : List Char) : Option (List Char × List Char) :=
  let ds := cs.takeWhile Char.isDigit
  if ds.isEmpty then none
  else
    match cs.drop ds.length with
    | '.' :: r2 =>
      let fs := r2.takeWhile Char.isDigit
      some (ds ++ '.' :: fs, r2.drop fs.length)
    | r1 => some (ds, r1)

/-- Case-insensitive literal match (ASCII + Cyrillic folding, matching
`re.IGNORECASE`). -/
def matchLitCI : List Char → List Char → Option (List Char)
  | [], cs => some cs
  | _ :: _, [] => none
  | l :: ls, c :: cs =>
    if pyLowerChar c = pyLowerChar l then matchLitCI ls cs else none

/-- Match `(\d+\.?\d*)\s*/\s*DEN` at the start of the input. -/
def matchRatioAt (den : List Char) (cs : List Char) : Option String :=
  match matchNum cs with
  | none => none
  | some (g, r1) =>
    match r1.dropWhile isPyWs with
    | '/' :: r3 =>
      if startsList den (r3.dropWhile isPyWs) then some ⟨g⟩ else none
    | _ => none

/-- Match `(\d+\.?\d*)\s*%` at the start of the input. -/
def matchPercentAt (cs : List Char) : Option String :=
  match matchNum cs with
  | none => none
  | some (g, r1) =>
    match r1.dropWhile isPyWs with
    | '%' :: _ => some ⟨g⟩
    | _ => none

/-- Match `(\d+\.?\d*)\s*из\s*DEN` at the start of the input. -/
def matchIzAt (den : List Char) (cs : List Char) : Option String :=
  match matchNum cs with
  | none => none
  | some (g, r1) =>
    match matchLitCI "из".data (r1.dropWhile isPyWs) with
    | none => none
    | some r2 =>
      if startsList den (r2.dropWhile isPyWs) then some ⟨g⟩ else none

/-- Match `rating[:\s]*(\d+\.?\d*)` at the start of the input
(case-insensitive). -/
def matchRatingAt (cs : List Char) : Option String :=
  match matchLitCI "rating".data cs with
  | none => none
  | some r1 =>
    match matchNum (r1.dropWhile (fun c => c = ':' ∨ isPyWs c)) with
    | none => none
    | some (g, _) => some ⟨g⟩

/-- `re.search`: try the matcher at every start position, left to right. -/
def searchIn (m : List Char → Option String) : List Char → Option String
  | [] => m []
  | c :: rest =>
    match m (c :: rest) with
    | some g => some g
    | none => searchIn m rest

/-- The regex source texts from `utils.extract_rating`, used by the
scale-branch test `'/100' in pattern or '%' in pattern or 'из 100' in
pattern` (evaluated on the pattern SOURCE, exactly as the Python does). -/
def ratingPatternSources : List String :=
  ["(\\d+\\.?\\d*)\\s*/\\s*100",
   "(\\d+\\.?\\d*)\\s*/\\s*10",
   "(\\d+\\.?\\d*)\\s*%",
   "(\\d+\\.?\\d*)\\s*из\\s*100",
   "(\\d+\\.?\\d*)\\s*из\\s*10",
   "rating[:\\s]*(\\d+\\.?\\d*)"]

/-- The branch test on a pattern source string. -/
def isHundredScalePattern (src : String) : Bool :=
  strContains src "/100" || strContains src "%" || strContains src "из 100"

/-- `float(group)` for a `\d+\.?\d*` group, modelled as the exact decimal
`mant / 10 ^ scale` (every value reachable in the theorems below is
exactly representable as a double, so this agrees with Python's float). -/
structure DecNum where
  mant : Nat
  scale : Nat
deriving Repr, DecidableEq

/-- Parse a `\d+\.?\d*` group into a `DecNum`. -/
def decNumOfStr (s : String) : DecNum :=
  let ds := s.data.takeWhile Char.isDigit
  let fs := (s.data.drop (ds.length + 1)).takeWhile Char.isDigit
  { mant := natFromDigits (ds ++ fs), scale := fs.length }

/-- `min(bound, x)` on a `DecNum`, for a natural bound. -/
def decNumMin (bound : Nat) (x : DecNum) : DecNum :=
  if bound * 10 ^ x.scale ≤ x.mant then { mant := bound * 10 ^ x.scale, scale := x.scale }
  else x

/-- `x * 10` on a `DecNum`. -/
def decNumMulTen (x : DecNum) : DecNum :=
  { mant := x.mant * 10, scale := x.scale }

/-- Python `format(x, '.0f')` for a nonnegative value: round half to even,
print the integer.  (`max(0, _)` from the source is the identity on these
nonnegative parsed values.) -/
def fmtF0 (x : DecNum) : String :=
  let p := 10 ^ x.scale
  let i := x.mant / p
  let r := x.mant % p
  let n := if 2 * r < p then i else if p < 2 * r then i + 1
           else if i % 2 = 0 then i else i + 1
  toString n

/-- The matcher for each pattern of `utils.extract_rating`, in order. -/
def ratingMatchers : List (List Char → Option String) :=
  [matchRatioAt "100".data,
   matchRatioAt "10".data,
   matchPercentAt,
   matchIzAt "100".data,
   matchIzAt "10".data,
   matchRatingAt]

/-- One pattern step of `utils.extract_rating`: on a match, clamp and
format per the scale branch. -/
def ratingStep (m : List Char → Option String) (src : String) (text : String) :
    Option String :=
  match searchIn m text.data with
  | none => none
  | some g =>
    let q := decNumOfStr g
    if isHundredScalePattern src then
      some (fmtF0 (decNumMin 100 q) ++ "/100")
    else
      some (fmtF0 (decNumMulTen (decNumMin 10 q)) ++ "/100")

/-- `utils.extract_rating`: try the six patterns in order; `"N/A"` for
empty input or when nothing matches. -/
def extract_rating (text : String) : String :=
  if text = "" then "N/A"
  else
    match ratingStep (matchRatioAt "100".data) (ratingPatternSources.get! 0) text with
    | some r => r
    | none =>
    match ratingStep (matchRatioAt "10".data) (ratingPatternSources.get! 1) text with
    | some r => r
    | none =>
    match ratingStep matchPercentAt (ratingPatternSources.get! 2) text with
    | some r => r
    | none =>
    match ratingStep (matchIzAt "100".data) (ratingPatternSources.get! 3) text with
    | some r => r
    | none =>
    match ratingStep (matchIzAt "10".data) (ratingPatternSources.get! 4) text with
    | some r => r
    | none =>
    match ratingStep matchRatingAt (ratingPatternSources.get! 5) text with
    | some r => r
    | none => "N/A"

example : extract_rating "8.5/10" = "85/100" := by decide
example : extract_rating "hello" = "N/A" := by decide
example : extract_rating "" = "N/A" := by decide
example : clean_text "  a  b " = "a b" := by decide
example : is_valid_url "https://asst2game.ru/g.html" = true := by decide

/-! ## JSON string-list codec (`json.dumps` / `json.loads`)

`Database.add_game` persists `json.dumps(list_of_strings)` (default
`ensure_ascii=True`, separator `", "`); the readers apply `json.loads`.
Both are embedded.  Lean `Char` cannot carry lone surrogates, so the
decoder rejects unpaired `\uD800`-range escapes; `json.dumps` never emits
them for well-formed strings, so the codec is total on encoder output. -/

/-- Lower-case hexadecimal digit. -/
def hexDigitChar (d : Nat) : Char :=
  if d < 10 then Char.ofNat ('0'.toNat + d) else Char.ofNat ('a'.toNat + d - 10)

/-- Four-digit lower-case hex, `'\\u%04x' % n`. -/
def toHex4 (n : Nat) : List Char :=
  [hexDigitChar (n / 4096 % 16), hexDigitChar (n / 256 % 16),
   hexDigitChar (n / 16 % 16), hexDigitChar (n % 16)]

/-- `json.dumps` escaping of one character with `ensure_ascii=True`:
short escapes, `\uXXXX` for other control/non-ASCII characters, surrogate
pairs beyond the BMP. -/
def encodeJsonChar (c : Char) : List Char :=
  if c = '"' then ['\\', '"']
  else if c = '\\' then ['\\', '\\']
  else if c = '\x08' then ['\\', 'b']
  else if c = '\x0c' then ['\\', 'f']
  else if c = '\n' then ['\\', 'n']
  else if c = '\r' then ['\\', 'r']
  else if c = '\t' then ['\\', 't']
  else if c.toNat < 0x20 then '\\' :: 'u' :: toHex4 c.toNat
  else if c.toNat < 0x7f then [c]
  else if c.toNat < 0x10000 then '\\' :: 'u' :: toHex4 c.toNat
  else
    let v := c.toNat - 0x10000
    ('\\' :: 'u' :: toHex4 (0xD800 + v / 0x400)) ++
      ('\\' :: 'u' :: toHex4 (0xDC00 + v % 0x400))

/-- Escaped body of a JSON string. -/
def encodeJsonBody (cs : List Char) : List Char :=
  (cs.map encodeJsonChar).flatten

/-- Tail of `json.dumps(list)` after the first element: `", <elem>"`
repeated, then `]`. -/
def encodeJsonTail : List String → List Char
  | [] => [']']
  | s :: t => ',' :: ' ' :: '"' :: (encodeJsonBody s.data ++ '"' :: encodeJsonTail t)

/-- `json.dumps(l)` for a list of strings (default separators,
`ensure_ascii=True`). -/
def jsonDumpsList : List String → String
  | [] => "[]"
  | s :: t => ⟨'[' :: '"' :: (encodeJsonBody s.data ++ '"' :: encodeJsonTail t)⟩

/-- JSON whitespace. -/
def isJsonWs (c : Char) : Bool :=
  c = ' ' ∨ c = '\t' ∨ c = '\n' ∨ c = '\r'

/-- The short escapes of the JSON string grammar. -/
def jsonShortEscape (e : Char) : Option Char :=
  if e = '"' then some '"'
  else if e = '\\' then some '\\'
  else if e = '/' then some '/'
  else if e = 'b' then some '\x08'
  else if e = 'f' then some '\x0c'
  else if e = 'n' then some '\n'
  else if e = 'r' then some '\r'
  else if e = 't' then some '\t'
  else none

/-- Outcome of consuming one token of a JSON string body: the closing
quote, one decoded character, or a syntax error. -/
inductive JStrTok where
  | close (rest : List Char)
  | chr (c : Char) (rest : List Char)
  | bad
deriving Repr, DecidableEq

/-- Consume one token of a JSON string body: a literal character, a short
escape, or a `\uXXXX` escape with surrogate-pair recombination exactly as
`json.loads` performs it.  (A LONE surrogate escape is rejected — Lean
`Char` cannot carry one — which is unreachable on `json.dumps` output.) -/
def jsonStrStep : List Char → JStrTok
  | [] => .bad
  | c :: rest =>
    if c = '"' then .close rest
    else if c = '\\' then
      match rest with
      | [] => .bad
      | e :: rest2 =>
        if e = 'u' then
          match rest2 with
          | a :: b :: d1 :: d0 :: rest3 =>
            if isHexDigit a ∧ isHexDigit b ∧ isHexDigit d1 ∧ isHexDigit d0 then
              let v := ((hexVal a * 16 + hexVal b) * 16 + hexVal d1) * 16 + hexVal d0
              if v < 0xD800 ∨ 0xE000 ≤ v then .chr (Char.ofNat v) rest3
              else if v < 0xDC00 then
                match rest3 with
                | b1 :: b2 :: e3 :: e2 :: e1 :: e0 :: rest4 =>
                  if b1 = '\\' ∧ b2 = 'u' ∧ isHexDigit e3 ∧ isHexDigit e2 ∧
                      isHexDigit e1 ∧ isHexDigit e0 then
                    let w := ((hexVal e3 * 16 + hexVal e2) * 16 + hexVal e1) * 16 + hexVal e0
                    if 0xDC00 ≤ w ∧ w < 0xE000 then
                      .chr (Char.ofNat (0x10000 + (v - 0xD800) * 0x400 + (w - 0xDC00))) rest4
                    else .bad
                  else .bad
                | _ => .bad
              else .bad
            else .bad
          | _ => .bad
        else
          match jsonShortEscape e with
          | none => .bad
          | some m => .chr m rest2
    else if c.toNat < 0x20 then .bad
    else .chr c rest

/-- Fuelled loop over `jsonStrStep` (every step consumes at least one
character, so fuel `length + 1` always suffices). -/
def decodeJsonStrGo : Nat → List Char → Option (List Char × List Char)
  | 0, _ => none
  | fuel + 1, cs =>
    match jsonStrStep cs with
    | .close rest => some ([], rest)
    | .chr c rest => (decodeJsonStrGo fuel rest).map (fun p => (c :: p.1, p.2))
    | .bad => none

/-- Decode a JSON string body (after the opening quote) up to and
including the closing quote, returning content and remainder. -/
def decodeJsonStr (cs : List Char) : Option (List Char × List Char) :=
  decodeJsonStrGo (cs.length + 1) cs

/-- Fuelled element loop of the array decoder: the input starts right
after a completed string element. -/
def decodeJsonElems : Nat → List Char → Option (List String)
  | 0, _ => none
  | fuel + 1, r =>
    match r.dropWhile isJsonWs with
    | [] => none
    | c :: r2 =>
      if c = ']' then (if r2.dropWhile isJsonWs = [] then some [] else none)
      else if c = ',' then
        match r2.dropWhile isJsonWs with
        | [] => none
        | c2 :: r3 =>
          if c2 = '"' then
            match decodeJsonStr r3 with
            | some (cs, rest) =>
              match decodeJsonElems fuel rest with
              | some t => some ((⟨cs⟩ : String) :: t)
              | none => none
            | none => none
          else none
      else none

/-- `json.loads` restricted to arrays of strings (which is all this
code base ever stores in the `genres`/`screenshots` columns). -/
def jsonLoadsStrList (s : String) : Option (List String) :=
  match s.data.dropWhile isJsonWs with
  | [] => none
  | c :: r =>
    if c = '[' then
      match r.dropWhile isJsonWs with
      | [] => none
      | c2 :: r2 =>
        if c2 = ']' then (if r2.dropWhile isJsonWs = [] then some [] else none)
        else if c2 = '"' then
          match decodeJsonStr r2 with
          | some (cs, rest) =>
            match decodeJsonElems (rest.length + 1) rest with
            | some t => some ((⟨cs⟩ : String) :: t)
            | none => none
          | none => none
        else none
    else none

/-! ## `Database` (src/database.py)

A store state is the list of persisted rows plus the next AUTOINCREMENT
id.  `add_game` runs `INSERT OR REPLACE`: SQLite deletes any row violating
the `title` UNIQUE constraint, then inserts the new row, which — since the
insert does not name the `id` column — receives a fresh AUTOINCREMENT id.
`created_at` / `updated_at` are wall-clock timestamps and are not
modelled. -/

/-- One persisted row of the `games` table (`genres` and `screenshots`
hold serialized JSON text). -/
structure Row where
  id : Nat
  title : String
  description : String
  rating : String
  genres : String
  image_url : String
  screenshots : String
  release_date : String
  url : String
deriving Repr, DecidableEq

/-- The `games` table state. -/
structure Store where
  rows : List Row
  nextId : Nat
deriving Repr, DecidableEq

/-- A freshly initialized database. -/
def emptyStore : Store := { rows := [], nextId := 1 }

/-- The row `Database.add_game` inserts (`game.get(...)` defaults,
`json.dumps` on the list fields). -/
def rowOf (id : Nat) (g : GameDict) : Row :=
  { id := id
    title := g.title.getD ""
    description := g.description.getD ""
    rating := g.rating.getD "N/A"
    genres := jsonDumpsList (g.genres.getD [])
    image_url := g.image_url.getD ""
    screenshots := jsonDumpsList (g.screenshots.getD [])
    release_date := g.release_date.getD ""
    url := g.url.getD "" }

/-- `Database.add_game`: `INSERT OR REPLACE` keyed by the UNIQUE `title`
column. -/
def add_game (g : GameDict) (s : Store) : Store :=
  { rows := s.rows.filter (fun r => r.title ≠ g.title.getD "") ++ [rowOf s.nextId g]
    nextId := s.nextId + 1 }

/-- A full ingestion: the sequence of `add_game` upserts a sync produces. -/
def runIngestion (gs : List GameDict) (s : Store) : Store :=
  gs.foldl (fun st g => add_game g st) s

/-- A game as returned by the read API: JSON columns decoded back into
lists. -/
structure GameOut where
  id : Nat
  title : String
  description : String
  rating : String
  image_url : String
  release_date : String
  url : String
  genres : List String
  screenshots : List String
deriving Repr, DecidableEq

/-- Row post-processing shared by the readers:
`json.loads(row[col]) if row[col] else []`; a `json.loads` failure is a
raised exception (`.error`). -/
def parseRowGame (r : Row) : Except Unit GameOut :=
  match (if r.genres = "" then some [] else jsonLoadsStrList r.genres),
        (if r.screenshots = "" then some [] else jsonLoadsStrList r.screenshots) with
  | some gs, some ss =>
    .ok { id := r.id, title := r.title, description := r.description,
          rating := r.rating, image_url := r.image_url,
          release_date := r.release_date, url := r.url,
          genres := gs, screenshots := ss }
  | _, _ => .error ()

/-- `Database.get_game_by_title`: `SELECT * FROM games WHERE title = ?`
on the UNIQUE title column. -/
def get_game_by_title (t : String) (s : Store) : Except Unit (Option GameOut) :=
  match s.rows.find? (fun r => r.title = t) with
  | none => .ok none
  | some r =>
    match parseRowGame r with
    | .ok g => .ok (some g)
    | .error e => .error e

/-- SQLite ASCII case folding (default `LIKE` is case-insensitive for
ASCII letters only). -/
def sqliteFoldChar (c : Char) : Char :=
  if 'A' ≤ c ∧ c ≤ 'Z' then Char.ofNat (c.toNat + 32) else c

/-- `column LIKE '%needle%'` for a needle without `%`/`_` wildcards:
ASCII-case-insensitive substring containment. -/
def sqliteLikeContains (needle hay : String) : Bool :=
  containsSub (needle.data.map sqliteFoldChar) (hay.data.map sqliteFoldChar)

/-- Stable insertion into a title-sorted list (SQLite `ORDER BY title`
under the default BINARY collation = code-point order). -/
def insertRowByTitle (r : Row) : List Row → List Row
  | [] => [r]
  | x :: xs => if r.title ≤ x.title then r :: x :: xs else x :: insertRowByTitle r xs

/-- Sort rows by title ascending. -/
def sortRowsByTitle (l : List Row) : List Row :=
  l.foldr insertRowByTitle []

/-- The row set `Database.get_games_by_genre` returns:
`SELECT * FROM games WHERE genres LIKE '%g%' ORDER BY title LIMIT l OFFSET o`
(each returned row is then decoded by `parseRowGame`). -/
def get_games_by_genre_rows (genre : String) (limit offset : Nat) (s : Store) : List Row :=
  ((sortRowsByTitle (s.rows.filter (fun r => sqliteLikeContains genre r.genres))).drop
      offset).take limit

/-- `Database.get_games_count_by_genre`:
`SELECT COUNT(*) FROM games WHERE genres LIKE '%g%'`. -/
def get_games_count_by_genre (genre : String) (s : Store) : Nat :=
  (s.rows.filter (fun r => sqliteLikeContains genre r.genres)).length

/-! ## The deduplication merge of `add_unique_games_to_bot` /
`update_bot_with_all_514_games` (identical in both scripts)

Candidates come from `all_pages_extractor`, which sets
`found_genres = len(genres) > 0` on every record it emits. -/

/-- One candidate record from the crawl output file. -/
structure Candidate where
  title : String
  url : String
  genres : List String
  found_genres : Bool
deriving Repr, DecidableEq

/-- Python dict assignment `m[k] = v`: replacement keeps the key's
insertion position, a new key is appended. -/
def dictSet (m : List (String × Candidate)) (k : String) (v : Candidate) :
    List (String × Candidate) :=
  if (m.lookup k).isSome then m.map (fun p => if p.1 = k then (k, v) else p)
  else m ++ [(k, v)]

/-- One iteration of the merge loop:
`if title not in unique_games or (game['found_genres'] and not
unique_games[title]['found_genres']): unique_games[title] = game`. -/
def mergeStep (m : List (String × Candidate)) (g : Candidate) :
    List (String × Candidate) :=
  match m.lookup g.title with
  | none => dictSet m g.title g
  | some cur => if g.found_genres ∧ ¬cur.found_genres then dictSet m g.title g else m

/-- The `unique_games` map after folding the whole candidate stream. -/
def unique_games (gs : List Candidate) : List (String × Candidate) :=
  gs.foldl mergeStep []

/-! ## `GameParser.get_all_games` pagination walk (src/parser.py 828-890)

The network and HTML layers are abstracted as the page-parsing function
`parsePage` (the pure content of `parse_page_games` for each page URL) and
the detail fetcher `details` (which may fail: `Except`).  The loop logic —
URL construction, the `if not games: break` termination, the `max_pages =
50` cap, and the per-game detail enrichment with fallback to the listing
stub — is concrete. -/

/-- A listing stub produced by `parse_page_games`. -/
structure ListedGame where
  title : String
  url : String
deriving Repr, DecidableEq

/-- `GameParser.base_url`. -/
def base_url : String := "https://asst2game.ru"

/-- The page URL the loop actually fetches: the base URL for page 1,
otherwise `page_urls[-1]`, the nintendo-switch path variant. -/
def pageUrl (page : Nat) : String :=
  if page = 1 then base_url
  else "https://asst2game.ru/consoles/nintendo-switch/page/" ++ toString page ++ "/"

/-- Per-game detail enrichment: fetch details when the game has a url
different from the base url; on a `None` result or an exception, keep the
listing stub. -/
def detailStep (details : String → Except Unit (Option ListedGame))
    (g : ListedGame) : ListedGame :=
  if g.url ≠ "" ∧ g.url ≠ base_url then
    match details g.url with
    | .ok (some d) => d
    | .ok none => g
    | .error _ => g
  else g

/-- The `while page <= max_pages` loop, fuel = pages remaining. -/
def walkPages (parsePage : String → List ListedGame)
    (details : String → Except Unit (Option ListedGame)) :
    Nat → Nat → List ListedGame
  | 0, _ => []
  | fuel + 1, page =>
    let games := parsePage (pageUrl page)
    if games = [] then []
    else (games.map (detailStep details)) ++ walkPages parsePage details fuel (page + 1)

/-- `GameParser.get_all_games` with `max_pages = 50`. -/
def get_all_games (parsePage : String → List ListedGame)
    (details : String → Except Unit (Option ListedGame)) : List ListedGame :=
  walkPages parsePage details 50 1

example : jsonLoadsStrList (jsonDumpsList ["Action", "Инди"]) = some ["Action", "Инди"] := by decide
example : jsonLoadsStrList (jsonDumpsList []) = some [] := by decide

/-! ## `GameParser._extract_description` (src/parser.py lines 400-487) -/

/-- Raw children of a node (text nodes included), for sibling walks. -/
def HNode.childrenRaw : HNode → List HNode
  | .elem _ _ cs => cs
  | .txt _ => []

/-- Hand-compiled CSS selector
`#info > div > div.full-story > div.description-container`. -/
def selectDescRoot (soup : HNode) : Option HNode :=
  let infos := HNode.findAllIn (fun n => n.attr "id" = some "info") [soup]
  let step := fun (ns : List HNode) (p : HNode → Bool) =>
    (ns.map (fun n => (n.childElems).filter p)).flatten
  let l1 := step infos (fun n => n.tag = "div")
  let l2 := step l1 (fun n => n.tag = "div" ∧ n.hasClass "full-story")
  (step l2 (fun n => n.tag = "div" ∧ n.hasClass "description-container")).head?

/-- The heading tag names, in the order the code iterates them. -/
def headingTags : List String := ["h1", "h2", "h3", "h4", "h5", "h6"]

mutual
/-- `find_all(level)` paired with each hit's following siblings
(`next_siblings`), in document (pre-)order — scanning a child list. -/
def sibScanList (lv : String) : List HNode → List (HNode × List HNode)
  | [] => []
  | n :: ns => sibScanNode lv n ns ++ sibScanList lv ns
/-- Sibling-scan of one node whose following siblings are `ns`. -/
def sibScanNode (lv : String) : HNode → List HNode → List (HNode × List HNode)
  | .txt _, _ => []
  | .elem t a cs, ns =>
    (if t = lv then [(HNode.elem t a cs, ns)] else []) ++ sibScanList lv cs
end

/-- The paragraph-collecting sibling walk after a `#copypast` heading:
skip strings, stop at the next heading, take `<p>` text directly and all
nested `<p>` texts from other elements (nonempty after `clean_text`). -/
def collectParts : List HNode → List String
  | [] => []
  | n :: ns =>
    match n with
    | .txt _ => collectParts ns
    | .elem t a cs =>
      if t ∈ headingTags then []
      else if t = "p" then
        (let s := clean_text (HNode.getText (.elem t a cs))
         if s ≠ "" then [s] else []) ++ collectParts ns
      else
        (((HNode.elem t a cs).findAllTag "p").map
            (fun p => clean_text (HNode.getText p))).filter (fun s => s ≠ "")
          ++ collectParts ns

/-- All candidate `full_text` values of the primary (`Способ 0`) strategy,
in scan order: for each heading level and each heading containing
`#copypast`, the sibling paragraphs joined by blank lines and stripped. -/
def copypastCandidates (soup : HNode) : List String :=
  match selectDescRoot soup with
  | none => []
  | some root =>
    (headingTags.map (fun lv =>
      ((sibScanList lv root.childrenRaw).filter
          (fun pr => strContains (clean_text (HNode.getText pr.1)) "#copypast")).map
        (fun pr => pyStrip (String.intercalate "\n\n" (collectParts pr.2))))).flatten

/-- Primary strategy result: the loops return the first candidate whose
length exceeds 50. -/
def descStrategyZero (soup : HNode) : Option String :=
  (copypastCandidates soup).find? (fun t => t.length > 50)

/-- Candidates of the `body > ... > article` prefix of the strict-path
selector of `Способ 1` (shared with the genre extractor). -/
def mainArticleCandidates (soup : HNode) : List HNode :=
  let bodies := HNode.findAllIn (fun m => m.tag = "body") [soup]
  let step := fun (ns : List HNode) (p : HNode → Bool) =>
    (ns.map (fun n => (n.childElems).filter p)).flatten
  let l1 := step bodies (fun n => n.tag = "section" ∧ n.hasClass "wrap" ∧ n.hasClass "cf")
  let l2 := step l1 (fun n => n.tag = "section")
  let l3 := step l2 (fun n => n.tag = "div")
  let l4 := step l3 (fun n => n.tag = "div")
  step l4 (fun n => n.tag = "article")

/-- Child-combinator step over a tag name. -/
def chTag (ns : List HNode) (t : String) : List HNode :=
  (ns.map (fun n => (n.childElems).filter (fun c => c.tag = t))).flatten

/-- Child-combinator step `tag:nth-of-type(k)`. -/
def chTagNth (ns : List HNode) (t : String) (k : Nat) : List HNode :=
  ns.filterMap (fun n => ((n.childElems).filter (fun c => c.tag = t)).get? (k - 1))

/-- Hand-compiled strict-path selector of `Способ 1`:
`body > section.wrap.cf > section > div > div > article >
div:nth-of-type(5) > div:nth-of-type(2) > div > div >
div:nth-of-type(1) > div:nth-of-type(2) > main`. -/
def selectStoryMain (soup : HNode) : Option HNode :=
  let a := mainArticleCandidates soup
  let l1 := chTagNth a "div" 5
  let l2 := chTagNth l1 "div" 2
  let l3 := chTag l2 "div"
  let l4 := chTag l3 "div"
  let l5 := chTagNth l4 "div" 1
  let l6 := chTagNth l5 "div" 2
  (chTag l6 "main").head?

/-- `Способ 1`: all paragraph texts of the strict-path `main` container,
joined by blank lines, accepted when longer than 50. -/
def descStrategyOne (soup : HNode) : Option String :=
  match selectStoryMain soup with
  | none => none
  | some mainC =>
    let parts := ((mainC.findAllTag "p").map
        (fun p => clean_text (HNode.getText p))).filter (fun s => s ≠ "")
    let full := pyStrip (String.intercalate "\n\n" parts)
    if full.length > 50 then some full else none

/-- First element (document order, the node itself included) satisfying a
predicate — `select_one` for a simple selector. -/
def selectOneBy (soup : HNode) (p : HNode → Bool) : Option HNode :=
  (HNode.findAllIn p [soup]).head?

/-- The generic fallback selectors of `Способ 2`, compiled to element
predicates; `'article p'` is the one descendant selector. -/
def descStrategyTwoSelectors (soup : HNode) : List (Option HNode) :=
  [selectOneBy soup (fun n => n.hasClass "description"),
   selectOneBy soup (fun n => n.hasClass "game-description"),
   selectOneBy soup (fun n => n.hasClass "summary"),
   selectOneBy soup (fun n => n.hasClass "about"),
   selectOneBy soup (fun n => n.hasClass "post-content"),
   selectOneBy soup (fun n => n.hasClass "entry-content"),
   selectOneBy soup (fun n => n.hasClass "content"),
   ((HNode.findAllIn (fun n => n.tag = "article") [soup]).map
       (fun a => a.findAllTag "p")).flatten.head?,
   selectOneBy soup (fun n => n.hasClass "game-info"),
   selectOneBy soup (fun n => n.hasClass "details"),
   selectOneBy soup (fun n => n.tag = "div" ∧ n.attr "itemprop" = some "description")]

/-- `Способ 2`: first selector whose element text exceeds 50. -/
def descStrategyTwo (soup : HNode) : Option String :=
  ((descStrategyTwoSelectors soup).filterMap
      (fun e? => e?.bind (fun e =>
        let s := clean_text (HNode.getText e)
        if s.length > 50 then some s else none))).head?

/-- `Способ 3`: the first standalone paragraph longer than 50 that does
not mention Nintendo Switch. -/
def descStrategyThree (soup : HNode) : Option String :=
  ((soup.findAllTag "p").map (fun p => clean_text (HNode.getText p))).find?
    (fun s => s.length > 50 ∧ ¬strContains s "Nintendo Switch")

/-- `Способ 4`: the meta-description tag, accepted when longer than 20. -/
def descStrategyFour (soup : HNode) : Option String :=
  match soup.findFirst (fun m => m.tag = "meta" ∧ m.attr "name" = some "description") with
  | none => none
  | some m =>
    match m.attr "content" with
    | none => none
    | some c =>
      if c = "" then none
      else
        let d := clean_text c
        if d.length > 20 then some d else none

/-- `GameParser._extract_description`: the five strategies in order,
`""` when all fail. -/
def extract_description (soup : HNode) : String :=
  match descStrategyZero soup with
  | some t => t
  | none =>
  match descStrategyOne soup with
  | some t => t
  | none =>
  match descStrategyTwo soup with
  | some t => t
  | none =>
  match descStrategyThree soup with
  | some t => t
  | none =>
  match descStrategyFour soup with
  | some t => t
  | none => ""

/-! ## `GameParser._extract_screenshots` (src/parser.py lines 782-810) -/

/-- Elements matching the descendant selector `'.cls img'`: images inside
any element carrying the class, in document order. -/
def imgsUnderClass (soup : HNode) (cls : String) : List HNode :=
  ((HNode.findAllIn (fun n => n.hasClass cls) [soup]).map
      (fun c => c.findAllTag "img")).flatten

/-- The screenshot selector cascade, in source order. -/
def screenshotSelectorHits (soup : HNode) : List HNode :=
  (imgsUnderClass soup "screenshot") ++ (imgsUnderClass soup "gallery") ++
  (imgsUnderClass soup "screenshots") ++ (imgsUnderClass soup "game-gallery") ++
  (imgsUnderClass soup "media") ++
  (HNode.findAllIn (fun n => n.tag = "img" ∧ n.hasClass "screenshot") [soup])

/-- Append step of the selector phase: `src or data-src`, resolve against
the detail page URL, keep valid URLs not already collected. -/
def addShot (base : String) (acc : List String) (el : HNode) : List String :=
  match el.attrOr "src" "data-src" with
  | none => acc
  | some src =>
    if src = "" then acc
    else
      let full := normalize_url base src
      if is_valid_url full ∧ full ∉ acc then acc ++ [full] else acc

/-- Append step of the fallback phase: additionally drop logo/icon URLs. -/
def addShotFallback (base : String) (acc : List String) (el : HNode) : List String :=
  match el.attrOr "src" "data-src" with
  | none => acc
  | some src =>
    if src = "" then acc
    else if strContains (pyLower src) "logo" ∨ strContains (pyLower src) "icon" then acc
    else
      let full := normalize_url base src
      if is_valid_url full ∧ full ∉ acc then acc ++ [full] else acc

/-- `GameParser._extract_screenshots`: collect from the selector cascade;
when fewer than 3 were found, also consider `all_images[1:6]`. -/
def extract_screenshots (soup : HNode) (base : String) : List String :=
  let shots := (screenshotSelectorHits soup).foldl (addShot base) []
  if shots.length < 3 then
    (((soup.findAllTag "img").drop 1).take 5).foldl (addShotFallback base) shots
  else shots

/-! ## `GameParser.parse_game_details` (src/parser.py lines 323-382)

The per-field extractors are passed as `Except`-valued functions over an
abstract page type: a Python field extractor may raise any exception,
which `safe_execute` turns into the field's default. -/

/-- `utils.safe_execute(func, ..., default=d)`. -/
def safe_execute {α : Type} (e : Except Unit α) (default : α) : α :=
  match e with
  | .ok v => v
  | .error _ => default

/-- The seven field extractors of `parse_game_details`. -/
structure Extractors (S : Type) where
  title : S → Except Unit String
  description : S → Except Unit String
  rating : S → Except Unit String
  genres : S → Except Unit (List String)
  image : S → Except Unit String
  screenshots : S → Except Unit (List String)
  release_date : S → Except Unit String

/-- `GameParser.parse_game_details` from the parsed page onward: each
field wrapped in `safe_execute` with its default, early exit on an empty
title, final `validate_game_data` pass. -/
def parse_game_details {S : Type} (E : Extractors S) (game_url : String)
    (soup : S) : Option ValidatedGame :=
  if ¬is_valid_url game_url then none
  else
    let title := safe_execute (E.title soup) ""
    if title = "" then none
    else
      validate_game_data {
        title := some title
        description := some (safe_execute (E.description soup) "")
        rating := some (safe_execute (E.rating soup) "N/A")
        genres := some (safe_execute (E.genres soup) [])
        image_url := some (safe_execute (E.image soup) "")
        screenshots := some (safe_execute (E.screenshots soup) [])
        release_date := some (safe_execute (E.release_date soup) "")
        url := some game_url }

/-! ## Concrete instances used by the claim theorems -/

/-- First 39-character paragraph (no whitespace runs, so `clean_text` is
the identity on it). -/
def p39a : String := "abcdefghijklmnopqrstuvwxyz0123456789abc"

/-- Second 39-character paragraph. -/
def p39b : String := "zyxwvutsrqponmlkjihgfedcba9876543210zyx"

/-- A detail page whose `#copypast` description section holds two short
paragraphs whose blank-line-joined concatenation is exactly 80 characters;
every fallback description strategy fails on this page. -/
def soupC4 : HNode :=
  .elem "html" [] [
    .elem "body" [] [
      .elem "div" [("id", "info")] [
        .elem "div" [] [
          .elem "div" [("class", "full-story")] [
            .elem "div" [("class", "description-container")] [
              .elem "h2" [] [.txt "#copypast"],
              .elem "p" [] [.txt p39a],
              .elem "p" [] [.txt p39b]]]]]]]

/-- The 80-character primary concatenation of `soupC4`. -/
def concat80 : String := p39a ++ "\n\n" ++ p39b

/-- A 150-character paragraph. -/
def p150 : String :=
  "abcdefghijabcdefghijabcdefghijabcdefghijabcdefghijabcdefghijabcdefghijabcdefghijabcdefghijabcdefghijabcdefghijabcdefghijabcdefghijabcdefghijabcdefghij"

/-- A detail page whose `#copypast` section holds one 150-character
paragraph. -/
def soupC4w : HNode :=
  .elem "html" [] [
    .elem "body" [] [
      .elem "div" [("id", "info")] [
        .elem "div" [] [
          .elem "div" [("class", "full-story")] [
            .elem "div" [("class", "description-container")] [
              .elem "h2" [] [.txt "#copypast"],
              .elem "p" [] [.txt p150]]]]]]]

/-- An ingested game dict. -/
def gC2 : GameDict :=
  { title := some "Zelda BOTW", url := some "https://asst2game.ru/zelda.html",
    genres := some ["Action"] }

/-- A listing stub on page 1. -/
def gA : ListedGame := { title := "Game A", url := "https://asst2game.ru/a.html" }

/-- A listing stub on page 3. -/
def gB : ListedGame := { title := "Game B", url := "https://asst2game.ru/b.html" }

/-- A source whose pages 1 and 3 have entries and all other pages are
empty: the first run of 3 consecutive zero-entry pages is pages 4-6
(page 2 is an isolated zero-entry page). -/
def cSrc (u : String) : List ListedGame :=
  if u = pageUrl 1 then [gA] else if u = pageUrl 3 then [gB] else []

/-- A detail fetcher that always raises. -/
def cDet (_ : String) : Except Unit (Option ListedGame) := .error ()

/-- Theorem C1.  The claim states that a detail page whose genre metadata
attribute carries `"Action, RPG ,Adventure"` yields exactly
`["Action","RPG","Adventure"]`.  Evaluating the embedded
`_extract_genres_from_page` on such a page instead yields
`["Acti","Rpg","Adventure"]`: `_clean_genre_name` removes each exclude
word as a SUBSTRING, so `"on"` is deleted from inside `"action"`, and its
final `str.title()` renders `"RPG"` as `"Rpg"`.  The split/trim/dedupe/
order structure itself is as claimed. -/
theorem claimC1_eval :
    extract_genres_from_page soupC1 = ["Acti", "Rpg", "Adventure"] ∧
    genresFromContent "Action, RPG ,Adventure" = ["Acti", "Rpg", "Adventure"] := by
  constructor <;> decide

/-- Counterexample to C2 as stated: re-running the same one-game ingestion
yields a different `Store` state — `INSERT OR REPLACE` deletes the old row
and inserts a fresh one, so the surrogate id changes from 1 to 2 (and the
AUTOINCREMENT counter advances). -/
theorem claimC2_counterexample :
    runIngestion [gC2] (runIngestion [gC2] emptyStore) ≠ runIngestion [gC2] emptyStore := by
  decide

/-- Counterexample to C3 as stated: `cSrc` has its first run of 3
consecutive zero-entry pages at pages 4-6, so the claim demands that the
walk enumerate the entries of pages 1-3 (including `gB` from page 3);
`GameParser.get_all_games` instead stops at the single empty page 2 and
returns only page 1's entry. -/
theorem claimC3_counterexample :
    get_all_games cSrc cDet = [gA] ∧
    cSrc (pageUrl 2) = [] ∧ cSrc (pageUrl 3) = [gB] ∧
    cSrc (pageUrl 4) = [] ∧ cSrc (pageUrl 5) = [] ∧ cSrc (pageUrl 6) = [] ∧
    gB ∉ get_all_games cSrc cDet := by
  refine ⟨by decide, by decide, by decide, by decide, by decide, by decide, by decide⟩

/-- The loop of `get_all_games` enumerates exactly the pages before the
first zero-entry page. -/
theorem walkPages_halts_at_first_empty
    (parsePage : String → List ListedGame)
    (details : String → Except Unit (Option ListedGame)) (k : Nat)
    (hk : parsePage (pageUrl k) = [])
    (hprev : ∀ i, 1 ≤ i → i < k → parsePage (pageUrl i) ≠ []) :
    ∀ fuel page, 1 ≤ page → page ≤ k → k < page + fuel →
      walkPages parsePage details fuel page =
        ((List.range' page (k - page)).map
          (fun i => (parsePage (pageUrl i)).map (detailStep details))).flatten := by
  intro fuel
  induction fuel with
  | zero => intro page _ h2 h3; omega
  | succ fuel ih =>
    intro page h1 h2 h3
    by_cases hpk : page = k
    · subst hpk
      simp [walkPages, hk]
    · have hlt : page < k := by omega
      have hne := hprev page h1 hlt
      have hrange : k - page = (k - (page + 1)) + 1 := by omega
      rw [walkPages, if_neg hne, ih (page + 1) (by omega) (by omega) (by omega),
          hrange, List.range'_succ]
      simp

/-- Theorem C3 (amended).  With the default configuration
(`max_pages = 50`), for every source in which some page at or below the
cap yields zero entries, `GameParser.get_all_games` halts exactly after
the FIRST zero-entry page (not after a streak of 3) and enumerates
precisely the detail-enriched entries of the pages preceding it. -/
theorem claimC3_amended (parsePage : String → List ListedGame)
    (details : String → Except Unit (Option ListedGame)) (k : Nat)
    (h1 : 1 ≤ k) (h2 : k ≤ 50)
    (hk : parsePage (pageUrl k) = [])
    (hprev : ∀ i, 1 ≤ i → i < k → parsePage (pageUrl i) ≠ []) :
    get_all_games parsePage details =
      ((List.range' 1 (k - 1)).map
        (fun i => (parsePage (pageUrl i)).map (detailStep details))).flatten := by
  exact walkPages_halts_at_first_empty parsePage details k hk hprev 50 1
    (by omega) h1 (by omega)

/-- Witness for C3 (amended) at the concrete source `cSrc` with its first
zero-entry page at page 2. -/
theorem claimC3_witness :
    cSrc (pageUrl 2) = [] ∧
    get_all_games cSrc cDet =
      ((List.range' 1 1).map
        (fun i => (cSrc (pageUrl i)).map (detailStep cDet))).flatten :=
  ⟨by decide,
   claimC3_amended cSrc cDet 2 (by decide) (by decide) (by decide)
     (fun i hi1 hi2 => by
       have hi : i = 1 := by omega
       subst hi; decide)⟩

/-- Counterexample to C4 as stated: on `soupC4` the primary full-story
concatenation is exactly 80 characters, and `_extract_description`
RETURNS it (its threshold is `> 50`, not `≥ 100`) instead of engaging the
next fallback (which on this page would yield `""`). -/
theorem claimC4_counterexample :
    extract_description soupC4 = concat80 ∧ concat80.length = 80 ∧ concat80 ≠ "" := by
  refine ⟨by decide, by decide, by decide⟩

/-- Theorem C4 (amended).  The primary "full story" strategy of
`GameParser._extract_description` concatenates the nonempty paragraph
texts following a `#copypast` heading (no 20-character paragraph minimum)
joined by blank lines, and its result is accepted exactly when its length
EXCEEDS 50 (not 100): whenever the first candidate concatenation is longer
than 50 — an 80-character one as well as a 150-character one — it is
returned as-is. -/
theorem claimC4_amended (soup : HNode) (s : String)
    (hhead : (copypastCandidates soup).head? = some s)
    (hlen : 50 < s.length) :
    extract_description soup = s := by
  have hfind : descStrategyZero soup = some s := by
    unfold descStrategyZero
    cases hc : copypastCandidates soup with
    | nil => rw [hc] at hhead; simp at hhead
    | cons a t =>
      rw [hc] at hhead
      simp only [List.head?_cons, Option.some.injEq] at hhead
      subst hhead
      exact List.find?_cons_of_pos _ (by simpa using hlen)
  unfold extract_description
  rw [hfind]

/-- Witness for C4 (amended): a page whose primary concatenation has 150
characters is returned as-is. -/
theorem claimC4_witness :
    (copypastCandidates soupC4w).head? = some p150 ∧ 50 < p150.length ∧
    extract_description soupC4w = p150 :=
  ⟨by decide, by decide, claimC4_amended soupC4w p150 (by decide) (by decide)⟩

/-- All six rating patterns fail to match anywhere in the text. -/
def ratingNoMatch (t : String) : Bool :=
  (searchIn (matchRatioAt "100".data) t.data).isNone &&
  (searchIn (matchRatioAt "10".data) t.data).isNone &&
  (searchIn matchPercentAt t.data).isNone &&
  (searchIn (matchIzAt "100".data) t.data).isNone &&
  (searchIn (matchIzAt "10".data) t.data).isNone &&
  (searchIn matchRatingAt t.data).isNone

/-- Counterexample to C5 as stated: for `"8.5/10"` the extractor returns
the string `"85/100"` — the normalized value is rendered with the
`f"{rating:.0f}/100"` suffix — never the bare `"85"` the claim states. -/
theorem claimC5_counterexample :
    extract_rating "8.5/10" = "85/100" ∧ extract_rating "8.5/10" ≠ "85" := by
  refine ⟨by decide, by decide⟩

/-- Theorem C5 (amended).  `"8.5/10"` is normalized to the 0-100 scale and
rendered as `"85/100"`; every text in which none of the six numeric rating
patterns matches yields the sentinel `"N/A"`. -/
theorem claimC5_amended :
    extract_rating "8.5/10" = "85/100" ∧
    ∀ t : String, ratingNoMatch t = true → extract_rating t = "N/A" := by
  refine ⟨by decide, ?_⟩
  intro t h
  simp only [ratingNoMatch, Bool.and_eq_true, Option.isNone_iff_eq_none] at h
  obtain ⟨⟨⟨⟨⟨h1, h2⟩, h3⟩, h4⟩, h5⟩, h6⟩ := h
  by_cases ht : t = ""
  · simp [extract_rating, ht]
  · simp [extract_rating, ht, ratingStep, h1, h2, h3, h4, h5, h6]

/-- Witness for C5 (amended) at the pattern-free text `"hello"`. -/
theorem claimC5_witness :
    ratingNoMatch "hello" = true ∧ extract_rating "hello" = "N/A" :=
  ⟨by decide, claimC5_amended.2 "hello" (by decide)⟩


/-! ## Round-trip of the JSON string-list codec -/

/-- `hexDigitChar` produces hexadecimal digits. -/
theorem hexDigitChar_isHex (d : Nat) (h : d < 16) : isHexDigit (hexDigitChar d) = true := by
  interval_cases d <;> decide

/-- `hexVal` inverts `hexDigitChar`. -/
theorem hexVal_hexDigitChar (d : Nat) (h : d < 16) : hexVal (hexDigitChar d) = d := by
  interval_cases d <;> decide

/-- Tokenizing a `\uXXXX` escape outside the surrogate range. -/
theorem jsonStrStep_uHex (n : Nat) (h1 : n < 65536) (h2 : n < 0xd800 ∨ 0xe000 ≤ n)
    (rest : List Char) :
    jsonStrStep ('\\' :: 'u' :: (toHex4 n ++ rest)) = .chr (Char.ofNat n) rest := by
  have e3 : n / 4096 % 16 < 16 := Nat.mod_lt _ (by norm_num)
  have e2 : n / 256 % 16 < 16 := Nat.mod_lt _ (by norm_num)
  have e1 : n / 16 % 16 < 16 := Nat.mod_lt _ (by norm_num)
  have e0 : n % 16 < 16 := Nat.mod_lt _ (by norm_num)
  simp only [toHex4, List.cons_append]
  rw [jsonStrStep, if_neg (by decide), if_pos rfl]
  simp only []
  rw [if_pos trivial,
    if_pos ⟨hexDigitChar_isHex _ e3, hexDigitChar_isHex _ e2,
      hexDigitChar_isHex _ e1, hexDigitChar_isHex _ e0⟩]
  rw [hexVal_hexDigitChar _ e3, hexVal_hexDigitChar _ e2,
    hexVal_hexDigitChar _ e1, hexVal_hexDigitChar _ e0]
  have hfold : ((n / 4096 % 16 * 16 + n / 256 % 16) * 16 + n / 16 % 16) * 16 + n % 16 = n := by
    omega
  rw [hfold, if_pos h2, List.nil_append]

/-- Tokenizing a surrogate-pair escape (code points beyond the BMP). -/
theorem jsonStrStep_surrogatePair (n : Nat) (ha : 0x10000 ≤ n) (hb : n < 0x110000)
    (rest : List Char) :
    jsonStrStep ('\\' :: 'u' ::
        (toHex4 (0xD800 + (n - 0x10000) / 0x400) ++
          ('\\' :: 'u' :: (toHex4 (0xDC00 + (n - 0x10000) % 0x400) ++ rest)))) =
      .chr (Char.ofNat n) rest := by
  set hi := 0xD800 + (n - 0x10000) / 0x400 with hhi
  set lo := 0xDC00 + (n - 0x10000) % 0x400 with hlo
  have hdivlt : (n - 0x10000) / 0x400 < 0x400 := by omega
  have hmodlt : (n - 0x10000) % 0x400 < 0x400 := Nat.mod_lt _ (by norm_num)
  have e3 : hi / 4096 % 16 < 16 := Nat.mod_lt _ (by norm_num)
  have e2 : hi / 256 % 16 < 16 := Nat.mod_lt _ (by norm_num)
  have e1 : hi / 16 % 16 < 16 := Nat.mod_lt _ (by norm_num)
  have e0 : hi % 16 < 16 := Nat.mod_lt _ (by norm_num)
  have f3 : lo / 4096 % 16 < 16 := Nat.mod_lt _ (by norm_num)
  have f2 : lo / 256 % 16 < 16 := Nat.mod_lt _ (by norm_num)
  have f1 : lo / 16 % 16 < 16 := Nat.mod_lt _ (by norm_num)
  have f0 : lo % 16 < 16 := Nat.mod_lt _ (by norm_num)
  simp only [toHex4, List.cons_append]
  rw [jsonStrStep, if_neg (by decide), if_pos rfl]
  simp only []
  rw [if_pos trivial,
    if_pos ⟨hexDigitChar_isHex _ e3, hexDigitChar_isHex _ e2,
      hexDigitChar_isHex _ e1, hexDigitChar_isHex _ e0⟩]
  rw [hexVal_hexDigitChar _ e3, hexVal_hexDigitChar _ e2,
    hexVal_hexDigitChar _ e1, hexVal_hexDigitChar _ e0]
  have hfoldHi : ((hi / 4096 % 16 * 16 + hi / 256 % 16) * 16 + hi / 16 % 16) * 16 + hi % 16 = hi := by
    omega
  rw [hfoldHi, if_neg (by omega), if_pos (by omega)]
  simp only [List.nil_append]
  rw [if_pos ⟨trivial, trivial, hexDigitChar_isHex _ f3, hexDigitChar_isHex _ f2,
      hexDigitChar_isHex _ f1, hexDigitChar_isHex _ f0⟩]
  rw [hexVal_hexDigitChar _ f3, hexVal_hexDigitChar _ f2,
    hexVal_hexDigitChar _ f1, hexVal_hexDigitChar _ f0]
  have hfoldLo : ((lo / 4096 % 16 * 16 + lo / 256 % 16) * 16 + lo / 16 % 16) * 16 + lo % 16 = lo := by
    omega
  rw [hfoldLo, if_pos (by omega)]
  have hcomb : 0x10000 + (hi - 0xD800) * 0x400 + (lo - 0xDC00) = n := by
    have := Nat.div_add_mod (n - 0x10000) 0x400
    omega
  rw [hcomb]

/-- Tokenizing one encoded character prepended to arbitrary input. -/
theorem jsonStrStep_encodeChar (c : Char) (rest : List Char) :
    jsonStrStep (encodeJsonChar c ++ rest) = .chr c rest := by
  have hval : c.toNat < 0xd800 ∨ (0xdfff < c.toNat ∧ c.toNat < 0x110000) := c.valid
  by_cases h1 : c = '"'
  · subst h1; rfl
  by_cases h2 : c = '\\'
  · subst h2; rfl
  by_cases h3 : c = '\x08'
  · subst h3; rfl
  by_cases h4 : c = '\x0c'
  · subst h4; rfl
  by_cases h5 : c = '\n'
  · subst h5; rfl
  by_cases h6 : c = '\r'
  · subst h6; rfl
  by_cases h7 : c = '\t'
  · subst h7; rfl
  by_cases h8 : c.toNat < 0x20
  · have he : encodeJsonChar c = '\\' :: 'u' :: toHex4 c.toNat := by
      unfold encodeJsonChar
      rw [if_neg h1, if_neg h2, if_neg h3, if_neg h4, if_neg h5, if_neg h6, if_neg h7,
        if_pos h8]
    rw [he, List.cons_append, List.cons_append]
    have := jsonStrStep_uHex c.toNat (by omega) (by omega) rest
    simpa [Char.ofNat_toNat] using this
  by_cases h9 : c.toNat < 0x7f
  · have he : encodeJsonChar c = [c] := by
      unfold encodeJsonChar
      rw [if_neg h1, if_neg h2, if_neg h3, if_neg h4, if_neg h5, if_neg h6, if_neg h7,
        if_neg h8, if_pos h9]
    rw [he, List.singleton_append, jsonStrStep.eq_def]
    simp only []
    rw [if_neg h1, if_neg h2, if_neg h8]
  by_cases h10 : c.toNat < 0x10000
  · have he : encodeJsonChar c = '\\' :: 'u' :: toHex4 c.toNat := by
      unfold encodeJsonChar
      rw [if_neg h1, if_neg h2, if_neg h3, if_neg h4, if_neg h5, if_neg h6, if_neg h7,
        if_neg h8, if_neg h9, if_pos h10]
    rw [he, List.cons_append, List.cons_append]
    have := jsonStrStep_uHex c.toNat (by omega) (by omega) rest
    simpa [Char.ofNat_toNat] using this
  · have he : encodeJsonChar c =
        ('\\' :: 'u' :: toHex4 (0xD800 + (c.toNat - 0x10000) / 0x400)) ++
          ('\\' :: 'u' :: toHex4 (0xDC00 + (c.toNat - 0x10000) % 0x400)) := by
      unfold encodeJsonChar
      rw [if_neg h1, if_neg h2, if_neg h3, if_neg h4, if_neg h5, if_neg h6, if_neg h7,
        if_neg h8, if_neg h9, if_neg h10]
    rw [he]
    have := jsonStrStep_surrogatePair c.toNat (by omega) (by omega) rest
    simp only [List.cons_append, List.append_assoc, List.nil_append] at this ⊢
    simpa [Char.ofNat_toNat] using this

/-- Decoding an encoded string body with sufficient fuel. -/
theorem decodeJsonStrGo_encodeBody (cs : List Char) :
    ∀ (fuel : Nat) (rest : List Char), cs.length < fuel →
      decodeJsonStrGo fuel (encodeJsonBody cs ++ '"' :: rest) = some (cs, rest) := by
  induction cs with
  | nil =>
    intro fuel rest h
    cases fuel with
    | zero => omega
    | succ f => rfl
  | cons c cs ih =>
    intro fuel rest h
    cases fuel with
    | zero => omega
    | succ f =>
      have hb : encodeJsonBody (c :: cs) = encodeJsonChar c ++ encodeJsonBody cs := by
        simp [encodeJsonBody]
      have hlt : cs.length < f := by
        simp only [List.length_cons] at h
        omega
      rw [hb, List.append_assoc, decodeJsonStrGo, jsonStrStep_encodeChar]
      simp only []
      rw [ih f rest hlt]
      rfl

/-- Every encoded character occupies at least one character. -/
theorem encodeJsonChar_length_pos (c : Char) : 1 ≤ (encodeJsonChar c).length := by
  unfold encodeJsonChar
  by_cases h1 : c = '"'
  · simp [h1]
  by_cases h2 : c = '\\'
  · simp [h1, h2]
  by_cases h3 : c = '\x08'
  · simp [h1, h2, h3]
  by_cases h4 : c = '\x0c'
  · simp [h1, h2, h3, h4]
  by_cases h5 : c = '\n'
  · simp [h1, h2, h3, h4, h5]
  by_cases h6 : c = '\r'
  · simp [h1, h2, h3, h4, h5, h6]
  by_cases h7 : c = '\t'
  · simp [h1, h2, h3, h4, h5, h6, h7]
  by_cases h8 : c.toNat < 0x20
  · simp [h1, h2, h3, h4, h5, h6, h7, h8, toHex4]
  by_cases h9 : c.toNat < 0x7f
  · simp [h1, h2, h3, h4, h5, h6, h7, h8, h9]
  by_cases h10 : c.toNat < 0x10000
  · simp [h1, h2, h3, h4, h5, h6, h7, h8, h9, h10, toHex4]
  · simp [h1, h2, h3, h4, h5, h6, h7, h8, h9, h10, toHex4]

/-- The encoded body is no shorter than the source text. -/
theorem length_le_encodeJsonBody (cs : List Char) : cs.length ≤ (encodeJsonBody cs).length := by
  induction cs with
  | nil => simp [encodeJsonBody]
  | cons c cs ih =>
    have hb : encodeJsonBody (c :: cs) = encodeJsonChar c ++ encodeJsonBody cs := by
      simp [encodeJsonBody]
    rw [hb]
    have := encodeJsonChar_length_pos c
    simp only [List.length_append, List.length_cons]
    omega

/-- Decoding an encoded string body up to its closing quote. -/
theorem decodeJsonStr_encodeBody (cs : List Char) (rest : List Char) :
    decodeJsonStr (encodeJsonBody cs ++ '"' :: rest) = some (cs, rest) := by
  apply decodeJsonStrGo_encodeBody
  have := length_le_encodeJsonBody cs
  simp only [List.length_append, List.length_cons]
  omega

/-- Structure-eta for strings. -/
theorem stringMk_data (s : String) : (⟨s.data⟩ : String) = s := rfl

/-- The element loop inverts the encoded tail. -/
theorem decodeJsonElems_encodeTail (t : List String) :
    ∀ fuel : Nat, (encodeJsonTail t).length ≤ fuel →
      decodeJsonElems fuel (encodeJsonTail t) = some t := by
  induction t with
  | nil =>
    intro fuel h
    cases fuel with
    | zero => simp [encodeJsonTail] at h
    | succ f => rfl
  | cons s t ih =>
    intro fuel h
    cases fuel with
    | zero => simp [encodeJsonTail] at h
    | succ f =>
      rw [decodeJsonElems]
      have hd1 : (encodeJsonTail (s :: t)).dropWhile isJsonWs =
          ',' :: (' ' :: '"' :: (encodeJsonBody s.data ++ '"' :: encodeJsonTail t)) := by
        rw [encodeJsonTail]
        rw [List.dropWhile_cons_of_neg (by decide)]
      rw [hd1]
      simp only []
      rw [if_neg (by decide), if_pos trivial]
      have hd2 : (' ' :: '"' :: (encodeJsonBody s.data ++ '"' :: encodeJsonTail t)).dropWhile
          isJsonWs = '"' :: (encodeJsonBody s.data ++ '"' :: encodeJsonTail t) := by
        rw [List.dropWhile_cons_of_pos (by decide), List.dropWhile_cons_of_neg (by decide)]
      rw [hd2]
      simp only []
      rw [if_pos trivial, decodeJsonStr_encodeBody]
      simp only []
      have hlen : (encodeJsonTail t).length ≤ f := by
        have hlen1 : (encodeJsonTail (s :: t)).length =
            4 + (encodeJsonBody s.data).length + (encodeJsonTail t).length := by
          rw [encodeJsonTail]
          simp only [List.length_cons, List.length_append]
          omega
        omega
      rw [ih f hlen, stringMk_data]

/-- Theorem support: `json.loads` inverts `json.dumps` on every list of
strings. -/
theorem jsonLoads_jsonDumps (l : List String) : jsonLoadsStrList (jsonDumpsList l) = some l := by
  cases l with
  | nil => rfl
  | cons s t =>
    rw [jsonDumpsList]
    show jsonLoadsStrList ⟨'[' :: '"' :: (encodeJsonBody s.data ++ '"' :: encodeJsonTail t)⟩ =
      some (s :: t)
    rw [jsonLoadsStrList]
    simp only []
    rw [List.dropWhile_cons_of_neg (by decide)]
    simp only []
    rw [if_pos trivial]
    rw [List.dropWhile_cons_of_neg (by decide)]
    simp only []
    rw [if_neg (by decide), if_pos trivial, decodeJsonStr_encodeBody]
    simp only []
    rw [decodeJsonElems_encodeTail t _ (by omega), stringMk_data]

/-- `json.dumps` output is never the empty string. -/
theorem jsonDumpsList_ne_empty (l : List String) : jsonDumpsList l ≠ "" := by
  cases l with
  | nil => decide
  | cons s t =>
    rw [jsonDumpsList]
    intro h
    have := congrArg String.data h
    simp at this

/-- Theorem C10.  For every game dict with a non-empty title, immediately
after `Database.add_game(g)` a `Database.get_game_by_title(g['title'])`
succeeds and returns a record whose `genres` and `screenshots` are Python
LISTS equal to the ones supplied (the `json.dumps` / `json.loads`
round-trip is the identity), never the raw serialized strings; absent
`genres`/`screenshots` keys come back as the empty list (the typed model
makes `genres`/`screenshots` of the returned record lists by
construction). -/
theorem claimC10_roundtrip (g : GameDict) (s : Store)
    (h : g.title.getD "" ≠ "") :
    get_game_by_title (g.title.getD "") (add_game g s) =
      .ok (some { id := s.nextId, title := g.title.getD "",
                  description := g.description.getD "",
                  rating := g.rating.getD "N/A",
                  image_url := g.image_url.getD "",
                  release_date := g.release_date.getD "",
                  url := g.url.getD "",
                  genres := g.genres.getD [],
                  screenshots := g.screenshots.getD [] }) := by
  unfold get_game_by_title add_game
  have hfind : ((s.rows.filter (fun r => r.title ≠ g.title.getD "")) ++
      [rowOf s.nextId g]).find? (fun r => r.title = g.title.getD "") =
      some (rowOf s.nextId g) := by
    rw [List.find?_append]
    have h1 : (s.rows.filter (fun r => r.title ≠ g.title.getD "")).find?
        (fun r => r.title = g.title.getD "") = none := by
      rw [List.find?_eq_none]
      intro x hx
      have hne := (List.mem_filter.mp hx).2
      simpa using hne
    rw [h1]
    simp [rowOf]
  simp only [hfind]
  have hg : jsonDumpsList (g.genres.getD []) ≠ "" := jsonDumpsList_ne_empty _
  have hs : jsonDumpsList (g.screenshots.getD []) ≠ "" := jsonDumpsList_ne_empty _
  simp [parseRowGame, rowOf, hg, hs, jsonLoads_jsonDumps]

/-- A concrete dict for the C10 witness. -/
def gC10 : GameDict :=
  { title := some "Hollow Knight", url := some "https://asst2game.ru/hollow.html",
    genres := some ["Action", "Метроидвания"],
    screenshots := some ["https://asst2game.ru/s1.png", "https://asst2game.ru/s2.png"] }

/-- Witness for C10 at a concrete dict against the empty store. -/
theorem claimC10_witness :
    gC10.title.getD "" ≠ "" ∧
    get_game_by_title (gC10.title.getD "") (add_game gC10 emptyStore) =
      .ok (some { id := emptyStore.nextId, title := gC10.title.getD "",
                  description := gC10.description.getD "",
                  rating := gC10.rating.getD "N/A",
                  image_url := gC10.image_url.getD "",
                  release_date := gC10.release_date.getD "",
                  url := gC10.url.getD "",
                  genres := gC10.genres.getD [],
                  screenshots := gC10.screenshots.getD [] }) :=
  ⟨by decide, claimC10_roundtrip gC10 emptyStore (by decide)⟩

/-! ## Content-level analysis of repeated ingestion (claim C2) -/

/-- A persisted row minus its surrogate id (timestamps are unmodelled):
the observable content of a record. -/
structure RowContent where
  title : String
  description : String
  rating : String
  genres : String
  image_url : String
  screenshots : String
  release_date : String
  url : String
deriving Repr, DecidableEq

/-- Content projection of a row. -/
def Row.content (r : Row) : RowContent :=
  { title := r.title, description := r.description, rating := r.rating,
    genres := r.genres, image_url := r.image_url, screenshots := r.screenshots,
    release_date := r.release_date, url := r.url }

/-- Contents of a store, in row order. -/
def Store.contents (s : Store) : List RowContent :=
  s.rows.map Row.content

/-- The content a dict persists (independent of the assigned id). -/
def contentOf (g : GameDict) : RowContent :=
  (rowOf 0 g).content

/-- The upsert key of a dict. -/
def keyOf (g : GameDict) : String :=
  g.title.getD ""

/-- `add_game` at content level. -/
def addC (g : GameDict) (l : List RowContent) : List RowContent :=
  l.filter (fun c => c.title ≠ keyOf g) ++ [contentOf g]

/-- A full ingestion at content level. -/
def runC (gs : List GameDict) (l : List RowContent) : List RowContent :=
  gs.foldl (fun acc g => addC g acc) l

/-- Content projection commutes with filtering by title. -/
theorem map_content_filter (rows : List Row) (t : String) :
    (rows.filter (fun r => r.title ≠ t)).map Row.content =
      (rows.map Row.content).filter (fun c => c.title ≠ t) := by
  induction rows with
  | nil => rfl
  | cons r rows ih =>
    simp only [ne_eq, decide_not] at ih ⊢
    by_cases h : r.title = t
    · simp [List.filter_cons, h, ih, Row.content]
    · simp [List.filter_cons, h, ih, Row.content]

/-- `add_game` and content projection commute. -/
theorem contents_add_game (g : GameDict) (s : Store) :
    (add_game g s).contents = addC g s.contents := by
  unfold add_game Store.contents addC keyOf contentOf
  simp only [List.map_append, map_content_filter]
  rfl

/-- Ingestion and content projection commute. -/
theorem contents_runIngestion (gs : List GameDict) :
    ∀ s : Store, (runIngestion gs s).contents = runC gs s.contents := by
  induction gs with
  | nil => intro s; rfl
  | cons g gs ih =>
    intro s
    show (runIngestion gs (add_game g s)).contents = runC gs (addC g s.contents)
    rw [ih (add_game g s), contents_add_game]

/-- The canonical content list of an ingestion sequence: one row per
title, content of the LAST occurrence, ordered by last occurrence. -/
def canonContents : List GameDict → List RowContent
  | [] => []
  | g :: rest =>
    if keyOf g ∈ rest.map keyOf then canonContents rest
    else contentOf g :: canonContents rest

/-- Closed form of a content-level ingestion run. -/
theorem runC_eq (gs : List GameDict) :
    ∀ l : List RowContent,
      runC gs l = l.filter (fun c => c.title ∉ gs.map keyOf) ++ canonContents gs := by
  induction gs with
  | nil =>
    intro l
    simp [runC, canonContents]
  | cons g gs ih =>
    intro l
    show runC gs (addC g l) = _
    rw [ih (addC g l)]
    rw [show addC g l = l.filter (fun c => c.title ≠ keyOf g) ++ [contentOf g] from rfl]
    rw [List.filter_append]
    have hmerge : ((l.filter (fun c => c.title ≠ keyOf g)).filter
        (fun c => c.title ∉ gs.map keyOf)) =
        l.filter (fun c => c.title ∉ (g :: gs).map keyOf) := by
      rw [List.filter_filter]
      apply List.filter_congr
      intro c _
      by_cases h1 : c.title = keyOf g <;> by_cases h2 : c.title ∈ gs.map keyOf <;>
        simp [h1, h2]
    have hkey : (contentOf g).title = keyOf g := rfl
    by_cases hmem : keyOf g ∈ gs.map keyOf
    · rw [show canonContents (g :: gs) = canonContents gs from by
        rw [canonContents, if_pos hmem]]
      have hx : ∃ x ∈ gs, keyOf x = (contentOf g).title := by simpa using hmem
      have hdrop : ([contentOf g].filter (fun c => c.title ∉ gs.map keyOf)) = [] := by
        simp [hx]
      rw [hdrop, hmerge]
      simp
    · rw [show canonContents (g :: gs) = contentOf g :: canonContents gs from by
        rw [canonContents, if_neg hmem]]
      have hx : ∀ x ∈ gs, ¬keyOf x = (contentOf g).title := by simpa using hmem
      have hkeep : ([contentOf g].filter (fun c => c.title ∉ gs.map keyOf)) = [contentOf g] := by
        simp
        exact hx
      rw [hkeep, hmerge]
      simp

/-- Every canonical content row's title is one of the ingested keys. -/
theorem canonContents_titles (gs : List GameDict) :
    ∀ c ∈ canonContents gs, c.title ∈ gs.map keyOf := by
  induction gs with
  | nil => intro c hc; simp [canonContents] at hc
  | cons g gs ih =>
    intro c hc
    unfold canonContents at hc
    by_cases hmem : keyOf g ∈ gs.map keyOf
    · rw [if_pos hmem] at hc
      simp only [List.map_cons, List.mem_cons]
      exact Or.inr (ih c hc)
    · rw [if_neg hmem] at hc
      rcases List.mem_cons.mp hc with hc | hc
      · subst hc
        simp only [List.map_cons, List.mem_cons]
        exact Or.inl rfl
      · simp only [List.map_cons, List.mem_cons]
        exact Or.inr (ih c hc)

/-- Titles of a store stay duplicate-free under `add_game`. -/
theorem add_game_nodup_titles (g : GameDict) (s : Store)
    (h : (s.rows.map (fun r => r.title)).Nodup) :
    (((add_game g s).rows).map (fun r => r.title)).Nodup := by
  unfold add_game
  rw [List.map_append, List.nodup_append]
  refine ⟨h.sublist ((List.filter_sublist _).map _), by simp, ?_⟩
  intro t ht hmem2
  rcases List.mem_map.mp ht with ⟨r, hr, rfl⟩
  have hne := (List.mem_filter.mp hr).2
  simp only [List.map_cons, List.map_nil, List.mem_singleton] at hmem2
  rw [show (rowOf s.nextId g).title = g.title.getD "" from rfl] at hmem2
  simp only [ne_eq, decide_not, Bool.not_eq_eq_eq_not, Bool.not_true, decide_eq_false_iff_not] at hne
  exact hne hmem2

/-- Theorem C2 (amended).  Running the same ingestion twice from a fresh
store yields a store with identical CONTENTS (every persisted column:
title, description, rating, serialized genres, image url, serialized
screenshots, release date, url) — only the surrogate ids and timestamps
differ, because `INSERT OR REPLACE` re-inserts each row — and after any
ingestion sequence no two persisted rows share a title. -/
theorem claimC2_amended (gs : List GameDict) :
    (runIngestion gs (runIngestion gs emptyStore)).contents =
      (runIngestion gs emptyStore).contents ∧
    (((runIngestion gs emptyStore).rows).map (fun r => r.title)).Nodup := by
  constructor
  · rw [contents_runIngestion, contents_runIngestion]
    have hempty : emptyStore.contents = [] := rfl
    rw [hempty, runC_eq, runC_eq]
    simp only [List.filter_nil, List.nil_append]
    have hfilter : (canonContents gs).filter (fun c => c.title ∉ gs.map keyOf) = [] := by
      rw [List.filter_eq_nil_iff]
      intro c hc
      simpa using canonContents_titles gs c hc
    rw [hfilter, List.nil_append]
  · have hinv : ∀ (gs2 : List GameDict) (s : Store),
        ((s.rows.map (fun r => r.title)).Nodup) →
        (((runIngestion gs2 s).rows).map (fun r => r.title)).Nodup := by
      intro gs2
      induction gs2 with
      | nil => intro s hs; exact hs
      | cons g rest ih => intro s hs; exact ih _ (add_game_nodup_titles g s hs)
    exact hinv gs emptyStore (by simp [emptyStore])

/-! ## Fullness-precedence analysis of the merge (claim C6) -/

/-- Folding the rest of a single-title stream over a one-entry map: the
kept candidate is the current one if it already has genres, otherwise the
first genre-bearing candidate of the rest (the current one if none). -/
theorem unique_games_single_title (t : String) :
    ∀ (rest : List Candidate) (cur : Candidate),
      cur.title = t →
      cur.found_genres = !cur.genres.isEmpty →
      (∀ g ∈ rest, g.title = t) →
      (∀ g ∈ rest, g.found_genres = !g.genres.isEmpty) →
      (rest.foldl mergeStep [(t, cur)]).lookup t =
        some (if cur.genres.isEmpty then
                ((rest.find? (fun g => !g.genres.isEmpty)).getD cur)
              else cur) := by
  intro rest
  induction rest with
  | nil =>
    intro cur h1 h2 _ _
    by_cases hc : cur.genres.isEmpty <;> simp [List.lookup, hc]
  | cons g rest ih =>
    intro cur h1 h2 hall hwf
    have hg1 : g.title = t := hall g (by simp)
    have hgw : g.found_genres = !g.genres.isEmpty := hwf g (by simp)
    show (rest.foldl mergeStep (mergeStep [(t, cur)] g)).lookup t = _
    have hstep : mergeStep [(t, cur)] g =
        if g.found_genres ∧ ¬cur.found_genres then [(t, g)] else [(t, cur)] := by
      unfold mergeStep
      rw [hg1]
      simp only [List.lookup, beq_self_eq_true]
      split
      · simp [dictSet, List.lookup]
      · rfl
    rw [hstep]
    by_cases hcond : g.found_genres ∧ ¬cur.found_genres
    · rw [if_pos hcond]
      rw [ih g hg1 hgw (fun x hx => hall x (by simp [hx]))
        (fun x hx => hwf x (by simp [hx]))]
      have hge : ¬g.genres.isEmpty = true := by
        rw [hgw] at hcond
        simpa using hcond.1
      have hce : cur.genres.isEmpty = true := by
        rw [h2] at hcond
        simpa using hcond.2
      rw [if_neg hge, if_pos hce, List.find?_cons_of_pos _ (by simpa using hge)]
      simp
    · rw [if_neg hcond]
      rw [ih cur h1 h2 (fun x hx => hall x (by simp [hx]))
        (fun x hx => hwf x (by simp [hx]))]
      by_cases hce : cur.genres.isEmpty
      · have hgf : ¬g.found_genres = true := by
          intro hgf
          exact hcond ⟨hgf, by rw [h2]; simpa using hce⟩
        have hge : g.genres.isEmpty = true := by
          rw [hgw] at hgf
          simpa using hgf
        rw [if_pos hce, if_pos hce, List.find?_cons_of_neg _ (by simpa using hge)]
      · rw [if_neg hce, if_neg hce]

/-- Theorem C6.  For every title and every nonempty stream of well-formed
candidate records with that title (the crawler sets
`found_genres = len(genres) > 0`), the merge of
`add_unique_games_to_bot` / `update_bot_with_all_514_games` keeps the
FIRST genre-bearing candidate when one exists, and the first-seen
candidate otherwise.  In particular, between a genre-bearing candidate and
a genre-empty one it keeps the genre-bearing one, and when both are empty
or both non-empty the first-seen one wins. -/
theorem claimC6_merge (g0 : Candidate) (rest : List Candidate) (t : String)
    (hall : ∀ g ∈ g0 :: rest, g.title = t)
    (hwf : ∀ g ∈ g0 :: rest, g.found_genres = !g.genres.isEmpty) :
    (unique_games (g0 :: rest)).lookup t =
      some (((g0 :: rest).find? (fun g => !g.genres.isEmpty)).getD g0) := by
  unfold unique_games
  show (rest.foldl mergeStep (mergeStep [] g0)).lookup t = _
  have h0 : mergeStep [] g0 = [(g0.title, g0)] := by
    simp [mergeStep, dictSet, List.lookup]
  rw [h0, hall g0 (by simp)]
  rw [unique_games_single_title t rest g0 (hall g0 (by simp)) (hwf g0 (by simp))
    (fun x hx => hall x (by simp [hx])) (fun x hx => hwf x (by simp [hx]))]
  by_cases hc : g0.genres.isEmpty
  · rw [if_pos hc, List.find?_cons_of_neg _ (by simpa using hc)]
  · rw [if_neg hc, List.find?_cons_of_pos _ (by simpa using hc)]
    simp

/-- A genre-less candidate record. -/
def candEmpty : Candidate :=
  { title := "Hollow Knight", url := "https://asst2game.ru/hk.html",
    genres := [], found_genres := false }

/-- A genre-bearing candidate record with the same title. -/
def candFull : Candidate :=
  { title := "Hollow Knight", url := "https://asst2game.ru/hk2.html",
    genres := ["Action", "Метроидвания"], found_genres := true }

/-- Witness for C6: merging a genre-empty candidate with a later
genre-bearing one of the same title keeps the genre-bearing one. -/
theorem claimC6_witness :
    (unique_games [candEmpty, candFull]).lookup "Hollow Knight" =
      some ((([candEmpty, candFull]).find? (fun g => !g.genres.isEmpty)).getD candEmpty) ∧
    ((([candEmpty, candFull]).find? (fun g => !g.genres.isEmpty)).getD candEmpty) = candFull :=
  ⟨claimC6_merge candEmpty [candFull] "Hollow Knight" (by decide) (by decide), by decide⟩

/-- Theorem C9.  If the rating extractor raises while the title,
description and genre extractors succeed (title valid), then
`parse_game_details` still returns a record: its rating is the sentinel
`"N/A"` (the `safe_execute` default), and its title, genres and
description are exactly the validated outputs of their own extractors —
a failure in one field extractor never aborts the others. -/
theorem claimC9_rating_isolation {S : Type} (E : Extractors S) (game_url : String) (soup : S)
    (t d : String) (gs : List String)
    (hurl : is_valid_url game_url = true)
    (htitle : E.title soup = .ok t)
    (ht : t ≠ "")
    (hvt : pyTake (clean_text t) 200 ≠ "")
    (hdesc : E.description soup = .ok d)
    (hgen : E.genres soup = .ok gs)
    (hrat : E.rating soup = .error ()) :
    ∃ v, parse_game_details E game_url soup = some v ∧
      v.rating = "N/A" ∧
      v.title = pyTake (clean_text t) 200 ∧
      v.description = clean_text d ∧
      v.genres = ((gs.filter (fun x => x ≠ "" ∧ clean_text x ≠ "")).map
          (fun x => pyTake (clean_text x) 50)) := by
  unfold parse_game_details
  rw [if_neg (by simp [hurl])]
  rw [htitle]
  simp only [safe_execute]
  rw [if_neg ht]
  unfold validate_game_data
  simp only [hdesc, hgen, hrat, safe_execute, Option.getD_some]
  rw [if_neg hvt]
  refine ⟨_, rfl, ?_, rfl, rfl, rfl⟩
  show pyTake (clean_text "N/A") 10 = "N/A"
  decide

/-- Constant extractors over a trivial page type, with a raising rating
extractor. -/
def extractorsC9 : Extractors Unit :=
  { title := fun _ => .ok "Hollow Knight"
    description := fun _ => .ok "A vast ruined kingdom of insects and heroes awaits below."
    rating := fun _ => .error ()
    genres := fun _ => .ok ["Action", "Метроидвания"]
    image := fun _ => .ok ""
    screenshots := fun _ => .ok []
    release_date := fun _ => .ok "" }

/-- Witness for C9 at the concrete extractor set. -/
theorem claimC9_witness :
    ∃ v, parse_game_details extractorsC9 "https://asst2game.ru/hk.html" () = some v ∧
      v.rating = "N/A" ∧
      v.title = pyTake (clean_text "Hollow Knight") 200 ∧
      v.description = clean_text "A vast ruined kingdom of insects and heroes awaits below." ∧
      v.genres = (((["Action", "Метроидвания"] : List String).filter
          (fun x => x ≠ "" ∧ clean_text x ≠ "")).map (fun x => pyTake (clean_text x) 50)) :=
  claimC9_rating_isolation extractorsC9 "https://asst2game.ru/hk.html" ()
    "Hollow Knight" "A vast ruined kingdom of insects and heroes awaits below."
    ["Action", "Метроидвания"] (by decide) rfl (by decide) (by decide) rfl rfl rfl

/-! ## Screenshot extraction bounds (claim C8) -/

/-- A detail page whose gallery holds 11 distinct screenshot images. -/
def soupC8 : HNode :=
  .elem "html" [] [
    .elem "body" [] [
      .elem "div" [("class", "gallery")] [
        .elem "img" [("src", "http://ex.com/s01.png")] [],
        .elem "img" [("src", "http://ex.com/s02.png")] [],
        .elem "img" [("src", "http://ex.com/s03.png")] [],
        .elem "img" [("src", "http://ex.com/s04.png")] [],
        .elem "img" [("src", "http://ex.com/s05.png")] [],
        .elem "img" [("src", "http://ex.com/s06.png")] [],
        .elem "img" [("src", "http://ex.com/s07.png")] [],
        .elem "img" [("src", "http://ex.com/s08.png")] [],
        .elem "img" [("src", "http://ex.com/s09.png")] [],
        .elem "img" [("src", "http://ex.com/s10.png")] [],
        .elem "img" [("src", "http://ex.com/s11.png")] []]]]

/-- The extracted-and-validated record of `soupC8`. -/
def gameC8 : GameDict :=
  { title := some "Zelda BOTW", url := some "https://asst2game.ru/zelda.html",
    screenshots := some (extract_screenshots soupC8 base_url) }

/-- Counterexample to C8 as stated: the screenshot extractor applies no
10-entry cap (the `[:10]` truncation in the code applies to genres), so a
page with 11 gallery images yields a record with 11 screenshots, and
`validate_game_data` passes all 11 through. -/
theorem claimC8_counterexample :
    (extract_screenshots soupC8 base_url).length = 11 ∧
    (validate_game_data gameC8).map (fun v => v.screenshots.length) = some 11 := by
  refine ⟨by decide, by decide⟩

/-- The selector-phase append step keeps the list duplicate-free. -/
theorem addShot_nodup (base : String) (acc : List String) (el : HNode)
    (h : acc.Nodup) : (addShot base acc el).Nodup := by
  unfold addShot
  cases el.attrOr "src" "data-src" with
  | none => exact h
  | some src =>
    simp only []
    by_cases h1 : src = ""
    · simp [h1, h]
    · rw [if_neg h1]
      by_cases h2 : is_valid_url (normalize_url base src) = true ∧
          normalize_url base src ∉ acc
      · rw [if_pos h2, List.nodup_append]
        refine ⟨h, List.nodup_singleton _, ?_⟩
        intro a ha hmem
        rw [List.mem_singleton] at hmem
        subst hmem
        exact h2.2 ha
      · rw [if_neg h2]
        exact h

/-- The fallback-phase append step keeps the list duplicate-free. -/
theorem addShotFallback_nodup (base : String) (acc : List String) (el : HNode)
    (h : acc.Nodup) : (addShotFallback base acc el).Nodup := by
  unfold addShotFallback
  cases el.attrOr "src" "data-src" with
  | none => exact h
  | some src =>
    simp only []
    by_cases h1 : src = ""
    · simp [h1, h]
    · rw [if_neg h1]
      by_cases h1b : strContains (pyLower src) "logo" = true ∨
          strContains (pyLower src) "icon" = true
      · rw [if_pos h1b]
        exact h
      · rw [if_neg h1b]
        by_cases h2 : is_valid_url (normalize_url base src) = true ∧
            normalize_url base src ∉ acc
        · rw [if_pos h2, List.nodup_append]
          refine ⟨h, List.nodup_singleton _, ?_⟩
          intro a ha hmem
          rw [List.mem_singleton] at hmem
          subst hmem
          exact h2.2 ha
        · rw [if_neg h2]
          exact h

/-- Folding either append step preserves duplicate-freedom. -/
theorem foldl_addShot_nodup (base : String) (els : List HNode) :
    ∀ acc : List String, acc.Nodup → (els.foldl (addShot base) acc).Nodup := by
  induction els with
  | nil => intro acc h; exact h
  | cons el els ih => intro acc h; exact ih _ (addShot_nodup base acc el h)

/-- Folding the fallback step preserves duplicate-freedom. -/
theorem foldl_addShotFallback_nodup (base : String) (els : List HNode) :
    ∀ acc : List String, acc.Nodup → (els.foldl (addShotFallback base) acc).Nodup := by
  induction els with
  | nil => intro acc h; exact h
  | cons el els ih => intro acc h; exact ih _ (addShotFallback_nodup base acc el h)

/-- Theorem C8 (amended).  The screenshots field produced by
`GameParser._extract_screenshots` is an ordered list that never contains
duplicate URLs, but NO 10-entry maximum is enforced: its length is
unbounded (the 10-cap in the code truncates the genre list, not the
screenshots), as the 11-screenshot counterexample shows. -/
theorem claimC8_amended (soup : HNode) (base : String) :
    (extract_screenshots soup base).Nodup := by
  unfold extract_screenshots
  have h1 := foldl_addShot_nodup base (screenshotSelectorHits soup) [] List.nodup_nil
  by_cases hlen :
      ((screenshotSelectorHits soup).foldl (addShot base) []).length < 3
  · rw [if_pos hlen]
    exact foldl_addShotFallback_nodup base _ _ h1
  · rw [if_neg hlen]
    exact h1

/-! ## Genre-query pagination (claim C7) -/

/-- `r` is the `i`-th (0-based) match in ascending title order: it is a
match and exactly `i` matches have a strictly smaller title. -/
def isNthMatchByTitle (M : List Row) (i : Nat) (r : Row) : Prop :=
  r ∈ M ∧ (M.filter (fun x => x.title < r.title)).length = i

/-- Insertion keeps the list a permutation. -/
theorem insertRowByTitle_perm (r : Row) (l : List Row) :
    (insertRowByTitle r l).Perm (r :: l) := by
  induction l with
  | nil => rfl
  | cons x xs ih =>
    unfold insertRowByTitle
    by_cases h : r.title ≤ x.title
    · rw [if_pos h]
    · rw [if_neg h]
      exact (ih.cons x).trans (List.Perm.swap r x xs)

/-- The title sort is a permutation of its input. -/
theorem sortRowsByTitle_perm (l : List Row) : (sortRowsByTitle l).Perm l := by
  induction l with
  | nil => rfl
  | cons x xs ih =>
    show (insertRowByTitle x (sortRowsByTitle xs)).Perm (x :: xs)
    exact (insertRowByTitle_perm x (sortRowsByTitle xs)).trans (ih.cons x)

/-- Insertion preserves sortedness by title. -/
theorem insertRowByTitle_sorted (r : Row) (l : List Row)
    (h : l.Pairwise (fun a b => a.title ≤ b.title)) :
    (insertRowByTitle r l).Pairwise (fun a b => a.title ≤ b.title) := by
  induction l with
  | nil => simp [insertRowByTitle]
  | cons x xs ih =>
    rcases List.pairwise_cons.mp h with ⟨hx, hxs⟩
    unfold insertRowByTitle
    by_cases hle : r.title ≤ x.title
    · rw [if_pos hle]
      refine List.pairwise_cons.mpr ⟨?_, h⟩
      intro b hb
      rcases List.mem_cons.mp hb with hb | hb
      · subst hb; exact hle
      · exact le_trans hle (hx b hb)
    · rw [if_neg hle]
      refine List.pairwise_cons.mpr ⟨?_, ih hxs⟩
      intro b hb
      have hb2 : b ∈ r :: xs := (insertRowByTitle_perm r xs).mem_iff.mp hb
      rcases List.mem_cons.mp hb2 with hb2 | hb2
      · subst hb2; exact le_of_not_le hle
      · exact hx b hb2

/-- The title sort is sorted. -/
theorem sortRowsByTitle_sorted (l : List Row) :
    (sortRowsByTitle l).Pairwise (fun a b => a.title ≤ b.title) := by
  induction l with
  | nil => simp [sortRowsByTitle]
  | cons x xs ih => exact insertRowByTitle_sorted x (sortRowsByTitle xs) ih

/-- With duplicate-free titles, sortedness is strict. -/
theorem sorted_strict_of_nodup (L : List Row)
    (hs : L.Pairwise (fun a b => a.title ≤ b.title))
    (hnd : (L.map (fun r => r.title)).Nodup) :
    L.Pairwise (fun a b => a.title < b.title) := by
  have hne : L.Pairwise (fun a b => a.title ≠ b.title) := by
    rw [List.Nodup, List.pairwise_map] at hnd
    exact hnd
  exact (hs.and hne).imp (fun hab => lt_of_le_of_ne hab.1 hab.2)

/-- In a strictly title-sorted list, the element at index `k` has exactly
`k` elements with a strictly smaller title. -/
theorem sorted_count_lt (L : List Row)
    (hs : L.Pairwise (fun a b => a.title < b.title)) :
    ∀ k (hk : k < L.length),
      (L.filter (fun x => x.title < (L.get ⟨k, hk⟩).title)).length = k := by
  induction L with
  | nil => intro k hk; simp at hk
  | cons a L ih =>
    rcases List.pairwise_cons.mp hs with ⟨ha, hs2⟩
    intro k hk
    cases k with
    | zero =>
      simp only [List.get]
      have hnil : ((a :: L).filter (fun x => x.title < a.title)) = [] := by
        rw [List.filter_eq_nil_iff]
        intro x hx
        rcases List.mem_cons.mp hx with hx | hx
        · subst hx; simp
        · simp only [decide_eq_true_eq]
          exact not_lt_of_lt (ha x hx)
      rw [hnil]
      rfl
    | succ j =>
      have hj : j < L.length := Nat.lt_of_succ_lt_succ hk
      simp only [List.get]
      have he : (L.get ⟨j, hj⟩) ∈ L := L.get_mem _ _
      rw [List.filter_cons_of_pos (by simpa using ha _ he)]
      rw [List.length_cons, ih hs2 j hj]

/-- Theorem C7 (amended).  SQLite `LIKE` matches the serialized genre text
ASCII-case-insensitively, so for every store state with duplicate-free
titles in which exactly 12 rows match genre `g` that way,
`get_games_by_genre(g, limit=5, offset=5)` returns exactly 5 rows, the
`i`-th returned row being the `(5+i)`-th match in ascending title order,
and `get_games_count_by_genre(g)` returns 12.  (The claim as stated —
with plain case-sensitive substring containment — fails; see the
counterexample.) -/
theorem claimC7_amended (genre : String) (s : Store)
    (hnd : ((s.rows.filter (fun r => sqliteLikeContains genre r.genres)).map
        (fun r => r.title)).Nodup)
    (h12 : (s.rows.filter (fun r => sqliteLikeContains genre r.genres)).length = 12) :
    (get_games_by_genre_rows genre 5 5 s).length = 5 ∧
    (∀ i (hi : i < (get_games_by_genre_rows genre 5 5 s).length),
      isNthMatchByTitle (s.rows.filter (fun r => sqliteLikeContains genre r.genres)) (5 + i)
        ((get_games_by_genre_rows genre 5 5 s).get ⟨i, hi⟩)) ∧
    get_games_count_by_genre genre s = 12 := by
  have hperm := sortRowsByTitle_perm (s.rows.filter (fun r => sqliteLikeContains genre r.genres))
  have hlenL : (sortRowsByTitle (s.rows.filter
      (fun r => sqliteLikeContains genre r.genres))).length = 12 := by
    rw [hperm.length_eq, h12]
  have hlen : (get_games_by_genre_rows genre 5 5 s).length = 5 := by
    unfold get_games_by_genre_rows
    rw [List.length_take, List.length_drop, hlenL]
    omega
  refine ⟨hlen, ?_, by unfold get_games_count_by_genre; exact h12⟩
  intro i hi
  have hi5 : i < 5 := by rw [hlen] at hi; exact hi
  have hidx : 5 + i < (sortRowsByTitle (s.rows.filter
      (fun r => sqliteLikeContains genre r.genres))).length := by
    rw [hlenL]; omega
  have hgetEq : (get_games_by_genre_rows genre 5 5 s).get ⟨i, hi⟩ =
      (sortRowsByTitle (s.rows.filter (fun r => sqliteLikeContains genre r.genres))).get
        ⟨5 + i, hidx⟩ := by
    unfold get_games_by_genre_rows
    simp only [List.get_eq_getElem]
    rw [List.getElem_take, List.getElem_drop]
  rw [hgetEq]
  constructor
  · exact hperm.mem_iff.mp (List.get_mem _ _ _)
  · have hsorted := sorted_strict_of_nodup _
      (sortRowsByTitle_sorted (s.rows.filter (fun r => sqliteLikeContains genre r.genres)))
      (by
        have := hperm.map (fun r => r.title)
        exact (this.nodup_iff).mpr hnd)
    have hcount := sorted_count_lt _ hsorted (5 + i) hidx
    have hfilterPerm := hperm.filter
      (fun x => x.title < ((sortRowsByTitle (s.rows.filter
        (fun r => sqliteLikeContains genre r.genres))).get ⟨5 + i, hidx⟩).title)
    rw [← hfilterPerm.length_eq, hcount]

/-- Row builder for the concrete query stores. -/
def mkRowC7 (i : Nat) (t g : String) : Row :=
  { id := i, title := t, description := "", rating := "N/A", genres := g,
    image_url := "", screenshots := "[]", release_date := "", url := "" }

/-- A store with exactly 12 Action rows. -/
def storeC7 : Store :=
  { rows := [mkRowC7 1 "Game A" "[\"Action\"]", mkRowC7 2 "Game B" "[\"Action\"]",
             mkRowC7 3 "Game C" "[\"Action\"]", mkRowC7 4 "Game D" "[\"Action\"]",
             mkRowC7 5 "Game E" "[\"Action\"]", mkRowC7 6 "Game F" "[\"Action\"]",
             mkRowC7 7 "Game G" "[\"Action\"]", mkRowC7 8 "Game H" "[\"Action\"]",
             mkRowC7 9 "Game I" "[\"Action\"]", mkRowC7 10 "Game J" "[\"Action\"]",
             mkRowC7 11 "Game K" "[\"Action\"]", mkRowC7 12 "Game L" "[\"Action\"]"],
    nextId := 13 }

/-- `storeC7` plus one row whose serialized genres contain only the
upper-cased `"ACTION"`. -/
def storeC7cex : Store :=
  { rows := storeC7.rows ++ [mkRowC7 13 "Game M" "[\"ACTION\"]"], nextId := 14 }

/-- Counterexample to C7 as stated: in `storeC7cex` exactly 12 rows carry
`"Action"` as a (case-sensitive) substring of their serialized genres, yet
`get_games_count_by_genre("Action")` returns 13 — SQLite `LIKE` also
matches the `"ACTION"` row, because it compares ASCII letters
case-insensitively. -/
theorem claimC7_counterexample :
    (storeC7cex.rows.filter (fun r => strContains r.genres "Action")).length = 12 ∧
    get_games_count_by_genre "Action" storeC7cex = 13 := by
  refine ⟨by decide, by decide⟩

/-- Witness for C7 (amended) at the 12-row store. -/
theorem claimC7_witness :
    ((storeC7.rows.filter (fun r => sqliteLikeContains "Action" r.genres)).map
        (fun r => r.title)).Nodup ∧
    (storeC7.rows.filter (fun r => sqliteLikeContains "Action" r.genres)).length = 12 ∧
    ((get_games_by_genre_rows "Action" 5 5 storeC7).length = 5 ∧
     (∀ i (hi : i < (get_games_by_genre_rows "Action" 5 5 storeC7).length),
       isNthMatchByTitle (storeC7.rows.filter
           (fun r => sqliteLikeContains "Action" r.genres)) (5 + i)
         ((get_games_by_genre_rows "Action" 5 5 storeC7).get ⟨i, hi⟩)) ∧
     get_games_count_by_genre "Action" storeC7 = 12) :=
  ⟨by decide, by decide, claimC7_amended "Action" storeC7 (by decide) (by decide)⟩
